import Mathlib

/-!
# effective_tz: store and HTTP handlers

A shallow embedding of `internal/store/pgstore.go` and of the handlers
`handleCreate` and `handleList` of `internal/apiserver/server.go`.

* Calls into the database driver, the HTTP client and `encoding/json` are the
  boundary of the model: what such a call answers is an input of the
  definitions below; what the Go code does with the answer is translated
  statement by statement.
* A Go function either returns or panics: `Outcome`.
* The goroutines of `handleCreate` run under an arbitrary interleaving: a
  schedule is a list of thread identifiers and `step` executes one atomic
  statement of the chosen thread.
* The wait group is a counter, a number of waiters and a semaphore.
  `wg.Add` and `wg.Done` are atomic; `wg.Wait` returns at once on a zero
  counter, otherwise blocks, and on waking up panics when the wait group is
  not back at zero.
* A panic of a goroutine launched by the handler terminates the process; a
  panic of the handler itself is recovered by net/http and leaves the request
  without response.
-/

namespace EffectiveTz

/-! ## Go values -/

/-- An `error` value, identified by its message. -/
structure Error where
  msg : String
deriving DecidableEq, Repr

/-- The error `errors.New("timeout")` of pgstore.go. -/
def errTimeout : Error := ⟨"timeout"⟩

/-- The error `errors.New("no rows affected")` of `PGStore.Update`. -/
def errNoRows : Error := ⟨"no rows affected"⟩

/-- The error `errors.New("no args respond")` of `handleList`. -/
def errNoArgs : Error := ⟨"no args respond"⟩

/-- How a Go call ends: it returns a value or it panics. -/
inductive Outcome (α : Type) where
  | ret (a : α)
  | panicked
deriving DecidableEq, Repr

/-- A JSON document. A number is kept as the decimal `mant * 10 ^ exp`. -/
inductive JSON where
  | null
  | bool (b : Bool)
  | number (mant : Int) (exp : Int)
  | string (s : String)
  | array (xs : List JSON)
  | object (kvs : List (String × JSON))

/-- A dynamic value held in a Go `interface{}`. `float64` carries the decimal
it was parsed from; `int16` is the type `PGStore.CreateEnriched` asserts for
`year`. A map is an association list, the first binding of a key is the live
one. -/
inductive GoValue where
  | nil
  | bool (b : Bool)
  | float64 (mant : Int) (exp : Int)
  | string (s : String)
  | int16 (n : Int)
  | slice (xs : List GoValue)
  | map (kvs : List (String × GoValue))

/-- A Go `map[string]interface{}`. -/
abbrev GoMap := List (String × GoValue)

/-- Indexing `m[k]`: the bound value, `none` for the nil interface of a
missing key. -/
def GoMap.get (m : GoMap) (k : String) : Option GoValue :=
  match m with
  | [] => none
  | (k', v) :: rest => if k' = k then some v else GoMap.get rest k

/-- Assignment `m[k] = v`. -/
def GoMap.set (m : GoMap) (k : String) (v : GoValue) : GoMap :=
  (k, v) :: m

mutual
/-- What `encoding/json` stores into an `interface{}`: nil, bool, float64,
string, `[]interface{}` or `map[string]interface{}`. -/
def JSON.toGo : JSON → GoValue
  | .null => .nil
  | .bool b => .bool b
  | .number m e => .float64 m e
  | .string s => .string s
  | .array xs => .slice (JSON.toGoList xs)
  | .object kvs => .map (JSON.toGoMap kvs [])
/-- Elements of a decoded array. -/
def JSON.toGoList : List JSON → List GoValue
  | [] => []
  | x :: xs => JSON.toGo x :: JSON.toGoList xs
/-- Members of a decoded object, assigned in document order into `acc`. -/
def JSON.toGoMap : List (String × JSON) → GoMap → GoMap
  | [], acc => acc
  | (k, v) :: rest, acc => JSON.toGoMap rest (GoMap.set acc k (JSON.toGo v))
end

/-! ## The database -/

/-- A row of table `enriched_info` (without its serial id). -/
structure EnrichedRow where
  regNum : String
  mark : String
  model : String
  year : Int
  name : String
  surname : String
  patronymic : String
deriving DecidableEq, Repr

/-- The tables of the schema created by `Migrate`: `numbers(id, number)` and
`enriched_info`, and the next value of the `numbers` id sequence. -/
structure DB where
  numbers : List (String × String)
  nextId : Nat
  enriched : List EnrichedRow
deriving DecidableEq, Repr

/-- The statements pgstore.go sends that change a table. -/
inductive Stmt where
  | insertNumber (num : String)
  | deleteNumber (id : String)
  | updateNumber (id newNum : String)
  | insertEnriched (row : EnrichedRow)
deriving DecidableEq, Repr

/-- Rows of `numbers` after `UPDATE numbers SET number = newNum WHERE id = id`. -/
def updateRows (rows : List (String × String)) (id newNum : String) :
    List (String × String) :=
  rows.map (fun r => if r.1 = id then (r.1, newNum) else r)

/-- The ids an `UPDATE ... WHERE id = id RETURNING id` yields, one per row hit. -/
def returningIds (rows : List (String × String)) (id : String) : List String :=
  (rows.filter (fun r => r.1 = id)).map (fun r => r.1)

/-- Result rows of `SELECT number FROM numbers WHERE id = id`. -/
def selectById (rows : List (String × String)) (id : String) : List String :=
  (rows.filter (fun r => r.1 = id)).map (fun r => r.2)

/-- Effect of one executed statement on the tables. -/
def Stmt.exec (db : DB) : Stmt → DB
  | .insertNumber num =>
      { db with numbers := db.numbers ++ [(toString db.nextId, num)], nextId := db.nextId + 1 }
  | .deleteNumber id => { db with numbers := db.numbers.filter (fun r => r.1 ≠ id) }
  | .updateNumber id newNum => { db with numbers := updateRows db.numbers id newNum }
  | .insertEnriched row => { db with enriched := db.enriched ++ [row] }

/-- Effect of a sequence of executed statements. -/
def execAll (db : DB) (stmts : List Stmt) : DB :=
  stmts.foldl Stmt.exec db

/-- How the driver answers one database call made under the 2-second
context: `err` is the error `ExecContext`/`QueryContext` returns (`none` when
the statement was executed), `deadline` tells whether `ctx.Err()` is
`context.DeadlineExceeded` when the store checks it after the call. -/
structure Call where
  err : Option Error
  deadline : Bool
deriving DecidableEq, Repr

/-- A database call that is executed in time. -/
def Call.ok : Call := ⟨none, false⟩

/-! ## pgstore.go -/

namespace PGStore

/-- `PGStore.Create`: the returned error and the statements executed. -/
def Create (c : Call) (num : String) : Option Error × List Stmt :=
  match c.err with
  | some err => (some err, [])
  | none =>
    if c.deadline then (some errTimeout, [.insertNumber num])
    else (none, [.insertNumber num])

/-- `PGStore.Delete`. -/
def Delete (c : Call) (id : String) : Option Error × List Stmt :=
  let stmts := match c.err with
    | some _ => []
    | none => [Stmt.deleteNumber id]
  if c.deadline then (some errTimeout, stmts)
  else match c.err with
    | some err => (some err, stmts)
    | none => (none, stmts)

/-- `PGStore.GetById`: `rows.Next()` and `rows.Scan(&number)` read the first
result row, `number` stays "" when there is none. -/
def GetById (c : Call) (id : String) (db : DB) : String × Option Error :=
  match c.err with
  | some err => ("", some err)
  | none =>
    if c.deadline then ("", some errTimeout)
    else match selectById db.numbers id with
      | number :: _ => (number, none)
      | [] => ("", none)

/-- `PGStore.GetByPrefix`, `rows` being the result rows of the LIKE query.
`defer rows.Close()` is registered before the error check: when
`QueryContext` fails `rows` is nil and the deferred call panics. -/
def GetByPrefix (c : Call) (rows : List String) : Outcome (List String × Option Error) :=
  match c.err with
  | some _ => .panicked
  | none =>
    if c.deadline then .ret ([], some errTimeout)
    else .ret (rows, none)

/-- `PGStore.GetByRegion`, `rows` being the result rows of the regular
expression query; same shape as `GetByPrefix`. -/
def GetByRegion (c : Call) (rows : List String) : Outcome (List String × Option Error) :=
  match c.err with
  | some _ => .panicked
  | none =>
    if c.deadline then .ret ([], some errTimeout)
    else .ret (rows, none)

/-- `PGStore.Update`: `Scan(&result)` stores the first returned id, its error
is dropped; `result` stays "" when the query failed or hit no row. -/
def Update (c : Call) (id newNum : String) (db : DB) : (String × Option Error) × List Stmt :=
  let result := match c.err with
    | some _ => ""
    | none => (returningIds db.numbers id).headD ""
  let stmts := match c.err with
    | some _ => []
    | none => [Stmt.updateNumber id newNum]
  if c.deadline then (("", some errTimeout), stmts)
  else if result = "" then (("", some errNoRows), stmts)
  else ((id, none), stmts)

/-- The type assertion `x.(string)` on the result of indexing a map. -/
def assertString : Option GoValue → Option String
  | some (.string s) => some s
  | _ => none

/-- The type assertion `x.(int16)`. -/
def assertInt16 : Option GoValue → Option Int
  | some (.int16 n) => some n
  | _ => none

/-- The type assertion `x.(map[string]interface{})`. -/
def assertMap : Option GoValue → Option GoMap
  | some (.map kvs) => some kvs
  | _ => none

/-- The eight unchecked type assertions at the head of `CreateEnriched`, in
source order; `none` when one of them panics. -/
def extract (data : GoMap) : Option EnrichedRow := do
  let regNum ← assertString (data.get "regNum")
  let mark ← assertString (data.get "mark")
  let model ← assertString (data.get "model")
  let year ← assertInt16 (data.get "year")
  let owner ← assertMap (data.get "owner")
  let name ← assertString (owner.get "name")
  let surname ← assertString (owner.get "surname")
  let patronymic ← assertString (owner.get "patronymic")
  pure ⟨regNum, mark, model, year, name, surname, patronymic⟩

/-- `PGStore.CreateEnriched`: how the call ends and the statements executed. -/
def CreateEnriched (c : Call) (data : GoMap) : Outcome (Option Error) × List Stmt :=
  match extract data with
  | none => (.panicked, [])
  | some row =>
    match c.err with
    | some err => (.ret (some err), [])
    | none =>
      if c.deadline then (.ret (some errTimeout), [.insertEnriched row])
      else (.ret none, [.insertEnriched row])

/-- `PGStore.Migrate`: `e1`, `e2` are the errors of the two `ExecContext`
calls, `deadline` the state of the shared context at the final check. -/
def Migrate (e1 e2 : Option Error) (deadline : Bool) : Option Error :=
  match e1 with
  | some err => some err
  | none =>
    match e2 with
    | some err => some err
    | none => if deadline then some errTimeout else none

end PGStore

/-- The decimal `mant * 10 ^ exp` rounds to a finite float64: its magnitude
is below `2 ^ 1024 - 2 ^ 970`, half a unit in the last place above the
largest float64. `strconv.ParseFloat` reports a range error otherwise. -/
def fitsFloat64 (mant exp : Int) : Bool :=
  decide (mant.natAbs * 10 ^ exp.toNat < (2 ^ 1024 - 2 ^ 970) * 10 ^ (-exp).toNat)

mutual
/-- Every number of the document converts to a float64. -/
def JSON.inRange : JSON → Bool
  | .null => true
  | .bool _ => true
  | .number m e => fitsFloat64 m e
  | .string _ => true
  | .array xs => JSON.inRangeList xs
  | .object kvs => JSON.inRangeMembers kvs
/-- Every number of the elements converts to a float64. -/
def JSON.inRangeList : List JSON → Bool
  | [] => true
  | x :: xs => JSON.inRange x && JSON.inRangeList xs
/-- Every number of the members converts to a float64. -/
def JSON.inRangeMembers : List (String × JSON) → Bool
  | [] => true
  | (_, v) :: rest => JSON.inRange v && JSON.inRangeMembers rest
end

/-- Decoding an enrichment response body into the freshly made
`map[string]interface{}`: `none` is a body that is not JSON; an object fills
the map, and `Decode` returns an error when one of its numbers, at any depth,
does not convert to a float64; `null` sets the map to nil, which reads like
the empty one; any other value is a type error. -/
def decodeInfo : Option JSON → Except Error GoMap
  | none => .error ⟨"invalid character"⟩
  | some (.object kvs) =>
    if JSON.inRangeMembers kvs then .ok (JSON.toGoMap kvs [])
    else .error ⟨"json: cannot unmarshal number into Go value of type float64"⟩
  | some .null => .ok []
  | some _ => .error ⟨"json: cannot unmarshal into Go value of type map[string]interface {}"⟩

/-- The payload of the enrichment service documented in the spec. -/
def samplePayload : JSON :=
  .object [("regNum", .string "X001AA"), ("mark", .string "Lada"), ("model", .string "Vesta"),
    ("year", .number 2002 0),
    ("owner", .object [("name", .string "Ivan"), ("surname", .string "Ivanov"),
      ("patronymic", .string "Ivanovich")])]

/-! ## server.go -/

set_option linter.dupNamespace false in
/-- Modelled from the spec: type `Number` of package `tz/internal/model`,
which is not among the sources; `handleCreate` fills its field `Number` with
`req.Num`, and the spec describes the response of `/create` as a record
containing the submitted identifiers. -/
structure Number where
  Number : List String
deriving DecidableEq, Repr

/-- The value a handler encodes as response body. -/
inductive Payload where
  | error (msg : String)
  | number (n : Number)
  | str (s : String)
  | strs (l : List String)
deriving DecidableEq, Repr

/-- What `Server.respond` writes: the status code and the encoded value. -/
structure Response where
  status : Nat
  body : Payload
deriving DecidableEq, Repr

/-- `Server.error`: respond with the message of `err` under key "error". -/
def respondError (code : Nat) (err : Error) : Response :=
  ⟨code, .error err.msg⟩

/-- The lookups of interface `store.Store` that `handleList` uses. -/
structure Store where
  GetById : String → Outcome (String × Option Error)
  GetByPrefix : String → Outcome (List String × Option Error)
  GetByRegion : String → Outcome (List String × Option Error)

/-- A lookup call made on the store. -/
inductive StoreCall where
  | getById (id : String)
  | getByPrefix (pref : String)
  | getByRegion (region : String)
deriving DecidableEq, Repr

/-- `Server.handleList` on the query parameters `id`, `prefix`, `region`:
the response written (or the panic of the lookup) and the lookups called. -/
def handleList (st : Store) (id pref region : String) : Outcome Response × List StoreCall :=
  if id ≠ "" then
    match st.GetById id with
    | .panicked => (.panicked, [.getById id])
    | .ret (_, some err) => (.ret (respondError 500 err), [.getById id])
    | .ret (number, none) => (.ret ⟨200, .str number⟩, [.getById id])
  else if pref ≠ "" then
    match st.GetByPrefix pref with
    | .panicked => (.panicked, [.getByPrefix pref])
    | .ret (_, some err) => (.ret (respondError 500 err), [.getByPrefix pref])
    | .ret (numbers, none) => (.ret ⟨200, .strs numbers⟩, [.getByPrefix pref])
  else if region ≠ "" then
    match st.GetByRegion region with
    | .panicked => (.panicked, [.getByRegion region])
    | .ret (_, some err) => (.ret (respondError 500 err), [.getByRegion region])
    | .ret (numbers, none) => (.ret ⟨200, .strs numbers⟩, [.getByRegion region])
  else
    (.ret (respondError 400 errNoArgs), [])

/-- What `http.Get` returns: a transport error, or a response with its status
code and body (`none`: the body is not a JSON document). -/
inductive GetResult where
  | err (e : Error)
  | resp (status : Nat) (body : Option JSON)

/-- The answers of the collaborators to one unit of work of `handleCreate`:
what `s.store.Create(v)` does (how it ends, statements executed), what
`http.Get(url + v)` returns and what `s.store.CreateEnriched(info)` does. -/
structure UnitEnv where
  create : String → Outcome (Option Error) × List Stmt
  get : GetResult
  createEnriched : GoMap → Outcome (Option Error) × List Stmt

/-- An atomic statement executed by a goroutine of `handleCreate`. -/
inductive Action where
  | wgAdd
  | wgDone
  | create (v : String) (stmts : List Stmt)
  | get (url : String)
  | decode
  | createEnriched (info : GoMap) (stmts : List Stmt)
  | logError (msg : String)
  | logInfo (msg : String)
  | bodyClose
  | panic

/-- The constant `url` of `handleCreate`. -/
def url : String := "http://api.url/info?regNum="

/-- The goroutine body of `handleCreate` for identifier `v`: the statements
it executes, in order, given the answers `u` of its collaborators. A panic
of a store call runs the deferred `response.Body.Close()` and then reaches the
top of the goroutine (`Action.panic`). -/
def unitOfWork (v : String) (u : UnitEnv) : List Action :=
  [.wgAdd, .create v (u.create v).2] ++
  match (u.create v).1 with
  | .panicked => [.panic]
  | .ret (some _) => [.logError "create error", .wgDone]
  | .ret none =>
    [.logInfo "create number success", .get (url ++ v)] ++
    match u.get with
    | .err _ => [.logError "get url %s error: %v", .wgDone]
    | .resp status body =>
      if status ≠ 200 then [.wgDone, .logError "create error", .bodyClose]
      else
        [.decode] ++
        match decodeInfo body with
        | .error _ => [.logError "decode response body error: %v", .wgDone, .bodyClose]
        | .ok info =>
          [.createEnriched info (u.createEnriched info).2] ++
          match (u.createEnriched info).1 with
          | .panicked => [.bodyClose, .panic]
          | .ret (some _) => [.logError "enriching error", .wgDone, .bodyClose]
          | .ret none => [.logInfo "enriching success", .wgDone, .bodyClose]

/-- A thread of one `handleCreate` request: the handler itself or the
goroutine launched for the identifier at position `i` of the batch. -/
inductive Tid where
  | main
  | unit (i : Nat)
deriving DecidableEq, Repr

/-- State of one `handleCreate` request after the body was decoded. -/
structure State where
  /-- the decoded `req.Num` -/
  regNums : List String
  /-- number of `go` statements the loop has executed -/
  launched : Nat
  /-- statements each goroutine has still to execute, in batch order -/
  threads : List (List Action)
  /-- counter of the wait group -/
  wg : Int
  /-- number of waiters registered in the wait group -/
  waiters : Nat
  /-- permits of the semaphore on which `wg.Wait()` sleeps -/
  sema : Nat
  /-- the handler has registered as waiter and sleeps in `wg.Wait()` -/
  blocked : Bool
  /-- `wg.Wait()` has returned -/
  waited : Bool
  /-- what the handler wrote with `s.respond` -/
  response : Option Response
  /-- the handler has panicked; net/http recovers the panic of a handler,
  which then writes no response -/
  aborted : Bool
  /-- an unrecovered panic of a goroutine has terminated the process -/
  crashed : Bool
  /-- the tables -/
  db : DB
  /-- statements executed so far, with the index of the goroutine -/
  trace : List (Nat × Action)

/-- Effect of one statement of a goroutine on the shared state. `wg.Add(1)`
and `wg.Done()` are atomic: `Done` decrements the counter and, when that
brings it to zero while a waiter is registered, clears the waiters and
releases the semaphore once for each. -/
def Action.apply (s : State) : Action → State
  | .wgAdd => { s with wg := s.wg + 1 }
  | .wgDone =>
    if s.wg - 1 = 0 ∧ s.waiters ≠ 0 then
      { s with wg := s.wg - 1, waiters := 0, sema := s.sema + s.waiters }
    else { s with wg := s.wg - 1 }
  | .create _ stmts => { s with db := execAll s.db stmts }
  | .createEnriched _ stmts => { s with db := execAll s.db stmts }
  | .panic => { s with crashed := true }
  | _ => s

/-- One step of the handler. It launches the next goroutine; the loop done,
it enters `wg.Wait()`, which returns at once when the counter is zero and
otherwise registers a waiter and sleeps; released by the semaphore it wakes
up and panics when the wait group is not back at zero (`sync: WaitGroup is
reused before previous Wait has returned`): an `Add` has landed since the
`Done` that released it; `Wait` passed, it responds 200 with the submitted
identifiers. A handler that has responded or panicked, or that sleeps, leaves
the state as it is. -/
def stepMain (s : State) : State :=
  if s.response.isSome || s.aborted then s
  else if s.launched < s.threads.length then { s with launched := s.launched + 1 }
  else if s.waited then { s with response := some ⟨200, .number ⟨s.regNums⟩⟩ }
  else if !s.blocked then
    (if s.wg = 0 then { s with waited := true }
     else { s with waiters := s.waiters + 1, blocked := true })
  else if s.sema = 0 then s
  else if s.wg ≠ 0 ∨ s.waiters ≠ 0 then
    { s with sema := s.sema - 1, blocked := false, aborted := true }
  else { s with sema := s.sema - 1, blocked := false, waited := true }

/-- One step of the goroutine at position `i`: once launched it executes its
next statement. -/
def stepUnit (s : State) (i : Nat) : State :=
  if i < s.launched then
    match s.threads.getD i [] with
    | a :: rest =>
      a.apply { s with threads := s.threads.set i rest, trace := s.trace ++ [(i, a)] }
    | [] => s
  else s

/-- One step of thread `t`. A thread that cannot move leaves the state as it
is; nothing moves once the process has crashed. The panics by which the wait
group reports a negative counter, or a counter at zero with a waiter
registered, are not part of the steps: under the atomicity of `Action.apply`
neither state is reached (`wg_nonneg`, `waiter_counter_pos`). -/
def step (s : State) (t : Tid) : State :=
  if s.crashed then s
  else match t with
  | .main => stepMain s
  | .unit i => stepUnit s i

/-- Run a schedule. -/
def run (s : State) (sched : List Tid) : State :=
  sched.foldl step s

/-- The goroutine bodies of the identifiers `regNums`, which stand at
positions `k`, `k + 1`, ... of the batch: `env i` answers the unit of work of
position `i`. -/
def scriptsFrom (env : Nat → UnitEnv) (k : Nat) : List String → List (List Action)
  | [] => []
  | v :: vs => unitOfWork v (env k) :: scriptsFrom env (k + 1) vs

/-- The goroutine bodies of a batch. -/
def scripts (env : Nat → UnitEnv) (regNums : List String) : List (List Action) :=
  scriptsFrom env 0 regNums

/-- State of `handleCreate` when it enters the loop over `req.Num`. -/
def start (env : Nat → UnitEnv) (db : DB) (regNums : List String) : State :=
  { regNums := regNums, launched := 0, threads := scripts env regNums, wg := 0, waiters := 0,
    sema := 0, blocked := false, waited := false, response := none, aborted := false,
    crashed := false, db := db, trace := [] }

/-- What `json.NewDecoder(r.Body).Decode(&req)` leaves behind in
`handleCreate`: an error; or no error and a nil `req`, when the body is the
JSON value `null`; or no error and a request with the slice `req.Num`. -/
inductive Decoded where
  | error (err : Error)
  | null
  | ok (regNums : List String)

/-- `Server.handleCreate`: `decoded` is the result of decoding the request
body into `req`, `sched` the interleaving of the handler and its goroutines.
On an error the handler responds 400 and returns. On a nil `req` the
expression `req.Num` panics before the loop. -/
def handleCreate (decoded : Decoded) (env : Nat → UnitEnv) (db : DB)
    (sched : List Tid) : State :=
  match decoded with
  | .error err =>
    { regNums := [], launched := 0, threads := [], wg := 0, waiters := 0, sema := 0,
      blocked := false, waited := false, response := some (respondError 400 err),
      aborted := false, crashed := false, db := db, trace := [] }
  | .null =>
    { regNums := [], launched := 0, threads := [], wg := 0, waiters := 0, sema := 0,
      blocked := false, waited := false, response := none,
      aborted := true, crashed := false, db := db, trace := [] }
  | .ok regNums => run (start env db regNums) sched

/-- A unit of work served by `PGStore`: the driver's answers to the two
inserts and the answer of the enrichment service. -/
def pgUnit (cCreate : Call) (get : GetResult) (cEnriched : Call) : UnitEnv :=
  { create := fun v => (.ret (PGStore.Create cCreate v).1, (PGStore.Create cCreate v).2),
    get := get,
    createEnriched := PGStore.CreateEnriched cEnriched }

/-- Number of `wg.Done()` among statements. -/
def doneCount (as : List Action) : Nat :=
  as.countP (fun a => match a with | .wgDone => true | _ => false)

/-- The statements goroutine `i` has executed. -/
def executedBy (s : State) (i : Nat) : List Action :=
  (s.trace.filter (fun p => p.1 = i)).map (fun p => p.2)

/-- The empty tables. -/
def DB.empty : DB := ⟨[], 1, []⟩

/-- The map holds a string under key `k`. -/
def hasString (m : GoMap) (k : String) : Bool :=
  match m.get k with
  | some (.string _) => true
  | _ => false

/-- The map holds an `int16` under key `k`. -/
def hasInt16 (m : GoMap) (k : String) : Bool :=
  match m.get k with
  | some (.int16 _) => true
  | _ => false

/-- The map holds a `float64`, the decoding of a JSON number, under key `k`. -/
def hasFloat64 (m : GoMap) (k : String) : Bool :=
  match m.get k with
  | some (.float64 _ _) => true
  | _ => false

/-- The map holds under "owner" a map with strings under "name", "surname"
and "patronymic". -/
def hasOwner (m : GoMap) : Bool :=
  match m.get "owner" with
  | some (.map o) => hasString o "name" && hasString o "surname" && hasString o "patronymic"
  | _ => false

/-- Every key `CreateEnriched` reads is present with the type its assertion
names: string for the six text fields, `int16` for `year`, a map for `owner`. -/
def wellTyped (data : GoMap) : Bool :=
  hasString data "regNum" && hasString data "mark" && hasString data "model" &&
    hasInt16 data "year" && hasOwner data

/-- The payload of the spec: strings under regNum, mark and model, a JSON
number under year, an owner object with three strings. -/
def specPayload (data : GoMap) : Bool :=
  hasString data "regNum" && hasString data "mark" && hasString data "model" &&
    hasFloat64 data "year" && hasOwner data

/-- Change of the wait group counter by one statement. -/
def bal : Action → Int
  | .wgAdd => 1
  | .wgDone => -1
  | _ => 0

/-- Change of the wait group counter by a list of statements. -/
def balance : List Action → Int
  | [] => 0
  | a :: as => bal a + balance as

/-- Number of `wg.Add(1)` among statements. -/
def addCount (as : List Action) : Nat :=
  as.countP (fun a => match a with | .wgAdd => true | _ => false)

/-- The counter of the wait group is the sum of what the goroutines have
added and taken back so far: together with what their remaining statements
will do, that is the sum over their scripts. -/
def Counted (all : List (List Action)) (s : State) : Prop :=
  s.wg + (s.threads.map balance).sum = (all.map balance).sum ∧ s.threads.length = all.length

/-- The statement is the panic that ends a goroutine. -/
def Action.isPanic : Action → Bool
  | .panic => true
  | _ => false

/-- The statement is a call of `CreateEnriched`. -/
def Action.isCreateEnriched : Action → Bool
  | .createEnriched _ _ => true
  | _ => false

/-- The statement is the enrichment HTTP GET. -/
def Action.isGet : Action → Bool
  | .get _ => true
  | _ => false

/-- The statements a store call of the goroutine executed. -/
def Action.stmts : Action → List Stmt
  | .create _ st => st
  | .createEnriched _ st => st
  | _ => []

/-- The statement is an insert. -/
def Stmt.isInsert : Stmt → Bool
  | .insertNumber _ => true
  | .insertEnriched _ => true
  | _ => false

/-- The store calls of a unit of work return: none of them panics. -/
def UnitEnv.returns (u : UnitEnv) : Prop :=
  (∀ v, (u.create v).1 ≠ .panicked) ∧ (∀ info, (u.createEnriched info).1 ≠ .panicked)

/-- No statement of the list is a panic: the store calls the goroutine makes
return. -/
def panicFree (as : List Action) : Bool :=
  as.all (fun a => !a.isPanic)

/-- Steps the request has still to make: statements of the goroutines and,
while the handler has neither responded nor panicked, goroutines to launch,
the steps of the wait and the response. -/
def work (s : State) : Nat :=
  (s.threads.map List.length).sum +
    (if s.response.isSome || s.aborted then 0
     else (s.threads.length - s.launched) +
       (if s.waited then 0 else if s.blocked then 1 else 2) + 1)

/-- The process is alive and no goroutine has a panic ahead. -/
def Alive (s : State) : Prop :=
  s.crashed = false ∧ ∀ l ∈ s.threads, ∀ a ∈ l, a.isPanic = false

/-- The only response ever written is 200 with the submitted identifiers. -/
def Answered (s : State) : Prop :=
  s.response = none ∨ s.response = some ⟨200, .number ⟨s.regNums⟩⟩

/-- While a waiter is registered the counter is positive, and a handler
that sleeps on an empty semaphore is registered. -/
def Waiting (s : State) : Prop :=
  (s.waiters ≠ 0 → 0 < s.wg) ∧ (s.blocked = true → s.sema = 0 → s.waiters ≠ 0)

/-- While the process is alive no executed statement is a panic. -/
def Executed (s : State) : Prop :=
  s.crashed = false → ∀ p ∈ s.trace, p.2.isPanic = false

/-- Two states of a request agree on everything but goroutine `i`. -/
def AgreeOff (i : Nat) (s s' : State) : Prop :=
  s.launched = s'.launched ∧ s.crashed = s'.crashed ∧
  s.threads.length = s'.threads.length ∧
  ∀ j, j ≠ i → s.threads.getD j [] = s'.threads.getD j [] ∧ executedBy s j = executedBy s' j

/-- Goroutine `i` has no panic ahead, and the handler waits or responds only
after the loop has launched every goroutine. -/
def Quiet (i : Nat) (s : State) : Prop :=
  (∀ a ∈ s.threads.getD i [], a.isPanic = false) ∧
  ((s.waited = true ∨ s.blocked = true ∨ s.aborted = true ∨ s.response.isSome = true) →
    ¬ s.launched < s.threads.length)

/-- Every statement executed so far belongs to the script of its goroutine:
what goroutine `j` has executed, followed by what it has still to execute,
is its script. -/
def Scripted (all : List (List Action)) (s : State) : Prop :=
  ∀ j, executedBy s j ++ s.threads.getD j [] = all.getD j []

/-- The store calls still to run execute inserts only, and every number a
traced `Create` inserted is in the table. -/
def InsertsOnly (s : State) : Prop :=
  (∀ l ∈ s.threads, ∀ a ∈ l, ∀ x ∈ a.stmts, x.isInsert = true) ∧
  (∀ p ∈ s.trace, ∀ n, Stmt.insertNumber n ∈ p.2.stmts → ∃ id, (id, n) ∈ s.db.numbers)

/-- A batch served by `PGStore` in which every insert succeeds and the
enrichment service answers 200 with the payload of the spec. -/
def enrichedEnv : Nat → UnitEnv :=
  fun _ => pgUnit Call.ok (.resp 200 (some samplePayload)) Call.ok

/-- A batch served by `PGStore` in which every insert succeeds and the
enrichment service answers 200 with the object `{"regNum": "X001AA"}`, the
other keys missing. -/
def truncatedEnv : Nat → UnitEnv :=
  fun _ => pgUnit Call.ok (.resp 200 (some (.object [("regNum", .string "X001AA")]))) Call.ok

/-- A batch served by `PGStore` in which every insert succeeds and the
enrichment service answers 503. -/
def unavailableEnv : Nat → UnitEnv :=
  fun _ => pgUnit Call.ok (.resp 503 none) Call.ok

/-- A batch served by `PGStore`: `calls k` gives, for the unit of work at
position `k`, the driver's answer to the insert of `Create`, the answer of the
enrichment service and the driver's answer to the insert of `CreateEnriched`. -/
def pgEnv (calls : Nat → Call × GetResult × Call) : Nat → UnitEnv :=
  fun k => pgUnit (calls k).1 (calls k).2.1 (calls k).2.2

/-- A batch in which every insert fails. -/
def allFailCalls : Nat → Call × GetResult × Call :=
  fun _ => (⟨some ⟨"pq: connection refused"⟩, false⟩, .resp 200 none, Call.ok)

/-- A batch in which the insert of the first identifier fails, the other
identifiers being persisted and answered 503 by the enrichment service. -/
def firstFailsCalls : Nat → Call × GetResult × Call :=
  fun k => if k = 0 then (⟨some ⟨"pq: connection refused"⟩, false⟩, .resp 200 none, Call.ok)
    else (Call.ok, .resp 503 none, Call.ok)

/-- A schedule for a batch of two identifiers served as in `firstFailsCalls`:
both goroutines are launched and add to the wait group, the handler blocks in
`wg.Wait()`, the goroutines run to their ends, the handler wakes up and
responds. -/
def blockingSchedule : List Tid :=
  [.main, .main, .unit 0, .unit 1, .main, .unit 0, .unit 0, .unit 0, .unit 1, .unit 1, .unit 1,
    .unit 1, .unit 1, .unit 1, .main, .main]

/-- A schedule for a batch of two identifiers whose inserts fail: the handler
blocks in `wg.Wait()` while only the first goroutine has added to the wait
group; the second goroutine adds after the `Done` of the first has released
the handler and before the handler wakes up. -/
def lateAddSchedule : List Tid :=
  [.main, .main, .unit 0, .main, .unit 0, .unit 0, .unit 0, .unit 1, .main, .unit 1, .unit 1,
    .unit 1, .main, .main]

/-- A batch in which the first identifier is persisted and answered 200 with
the object `{"regNum": "X001AA"}`, the other identifiers being persisted and
answered 503. -/
def truncatedFirstCalls : Nat → Call × GetResult × Call :=
  fun k => if k = 0 then
      (Call.ok, .resp 200 (some (.object [("regNum", .string "X001AA")])), Call.ok)
    else (Call.ok, .resp 503 none, Call.ok)

/-! ## Theorems -/

/-! ### Decoded payloads and `CreateEnriched` -/

theorem toGo_ne_int16 (j : JSON) (n : Int) : JSON.toGo j ≠ .int16 n := by
  cases j <;> simp [JSON.toGo]

theorem get_toGoMap_ne_int16 (kvs : List (String × JSON)) :
    ∀ (acc : GoMap), (∀ k n, acc.get k ≠ some (.int16 n)) →
      ∀ k n, (JSON.toGoMap kvs acc).get k ≠ some (.int16 n) := by
  induction kvs with
  | nil => intro acc h k n; simpa [JSON.toGoMap] using h k n
  | cons p rest ih =>
    obtain ⟨k', v⟩ := p
    intro acc h k n
    rw [JSON.toGoMap]
    apply ih
    intro k2 n2
    by_cases hk : k' = k2
    · simp [GoMap.set, GoMap.get, hk, toGo_ne_int16]
    · simpa [GoMap.set, GoMap.get, hk] using h k2 n2

theorem extract_eq_none_of_year (data : GoMap)
    (h : ∀ n, data.get "year" ≠ some (.int16 n)) : PGStore.extract data = none := by
  have hy : PGStore.assertInt16 (data.get "year") = none := by
    cases hg : data.get "year" with
    | none => rfl
    | some x => cases x <;> first | rfl | exact absurd hg (h _)
  unfold PGStore.extract
  cases PGStore.assertString (data.get "regNum") <;>
    cases PGStore.assertString (data.get "mark") <;>
    cases PGStore.assertString (data.get "model") <;> simp [hy]

/-- Whatever JSON object the enrichment service sends, `CreateEnriched` on
its decoding panics and executes no statement: `year` is a float64. -/
theorem createEnriched_decoded_panics (c : Call) (kvs : List (String × JSON)) :
    PGStore.CreateEnriched c (JSON.toGoMap kvs []) = (.panicked, []) := by
  have h := extract_eq_none_of_year (JSON.toGoMap kvs [])
    (fun n => get_toGoMap_ne_int16 kvs [] (fun _ _ => by simp [GoMap.get]) "year" n)
  simp [PGStore.CreateEnriched, h]

set_option exponentiation.threshold 2000 in
/-- C6. On the payload of the spec (strings under regNum, mark, model, the
JSON number 2002 under year, an owner with three strings), decoded as
`handleCreate` decodes it, `CreateEnriched` panics at `data["year"].(int16)`
and never issues the insert. -/
theorem createEnriched_spec_payload_panics :
    decodeInfo (some samplePayload) = .ok (JSON.toGoMap
      [("regNum", .string "X001AA"), ("mark", .string "Lada"), ("model", .string "Vesta"),
       ("year", .number 2002 0),
       ("owner", .object [("name", .string "Ivan"), ("surname", .string "Ivanov"),
         ("patronymic", .string "Ivanovich")])] []) ∧
    specPayload (JSON.toGoMap
      [("regNum", .string "X001AA"), ("mark", .string "Lada"), ("model", .string "Vesta"),
       ("year", .number 2002 0),
       ("owner", .object [("name", .string "Ivan"), ("surname", .string "Ivanov"),
         ("patronymic", .string "Ivanovich")])] []) = true ∧
    PGStore.CreateEnriched Call.ok (JSON.toGoMap
      [("regNum", .string "X001AA"), ("mark", .string "Lada"), ("model", .string "Vesta"),
       ("year", .number 2002 0),
       ("owner", .object [("name", .string "Ivan"), ("surname", .string "Ivanov"),
         ("patronymic", .string "Ivanovich")])] []) = (.panicked, []) := by
  refine ⟨rfl, by decide, createEnriched_decoded_panics _ _⟩

theorem hasString_eq (m : GoMap) (k : String) :
    hasString m k = (PGStore.assertString (m.get k)).isSome := by
  unfold hasString PGStore.assertString
  cases m.get k with
  | none => rfl
  | some x => cases x <;> rfl

theorem hasInt16_eq (m : GoMap) (k : String) :
    hasInt16 m k = (PGStore.assertInt16 (m.get k)).isSome := by
  unfold hasInt16 PGStore.assertInt16
  cases m.get k with
  | none => rfl
  | some x => cases x <;> rfl

theorem hasOwner_eq (m : GoMap) :
    hasOwner m = match PGStore.assertMap (m.get "owner") with
      | some o => hasString o "name" && hasString o "surname" && hasString o "patronymic"
      | none => false := by
  unfold hasOwner PGStore.assertMap
  cases m.get "owner" with
  | none => rfl
  | some x => cases x <;> rfl

theorem extract_isSome_iff (data : GoMap) :
    (PGStore.extract data).isSome = wellTyped data := by
  unfold PGStore.extract wellTyped
  rw [hasOwner_eq, hasString_eq, hasString_eq, hasString_eq, hasInt16_eq]
  generalize PGStore.assertString (data.get "regNum") = a1
  generalize PGStore.assertString (data.get "mark") = a2
  generalize PGStore.assertString (data.get "model") = a3
  generalize PGStore.assertInt16 (data.get "year") = a4
  generalize PGStore.assertMap (data.get "owner") = a5
  cases a1 <;> cases a2 <;> cases a3 <;> cases a4 <;> cases a5 <;> try rfl
  rename_i r1 r2 r3 r4 o
  show (Option.isSome (do
      let name ← PGStore.assertString (o.get "name")
      let surname ← PGStore.assertString (o.get "surname")
      let patronymic ← PGStore.assertString (o.get "patronymic")
      pure (⟨r1, r2, r3, r4, name, surname, patronymic⟩ : EnrichedRow))) =
    (true && true && true && true &&
      (hasString o "name" && hasString o "surname" && hasString o "patronymic"))
  rw [hasString_eq, hasString_eq, hasString_eq]
  generalize PGStore.assertString (o.get "name") = b1
  generalize PGStore.assertString (o.get "surname") = b2
  generalize PGStore.assertString (o.get "patronymic") = b3
  cases b1 <;> cases b2 <;> cases b3 <;> rfl

/-- When a key is missing or holds a value of another type than the one its
assertion in `CreateEnriched` names, the call panics and executes no
statement. -/
theorem createEnriched_illTyped_panics (c : Call) (data : GoMap)
    (h : wellTyped data = false) :
    PGStore.CreateEnriched c data = (.panicked, []) := by
  have hx : PGStore.extract data = none := by
    have := extract_isSome_iff data
    rw [h] at this
    cases hq : PGStore.extract data with
    | none => rfl
    | some r => rw [hq] at this; simp at this
  simp [PGStore.CreateEnriched, hx]

/-- A decoded payload that is not the payload of the spec fails the typing
that the assertions of `CreateEnriched` ask for. -/
theorem wellTyped_false_of_not_spec (data : GoMap) (h : specPayload data = false) :
    wellTyped data = false ∨ hasFloat64 data "year" = false := by
  unfold specPayload at h
  unfold wellTyped
  cases h1 : hasString data "regNum" <;> cases h2 : hasString data "mark" <;>
    cases h3 : hasString data "model" <;> cases h4 : hasFloat64 data "year" <;>
    cases h5 : hasOwner data <;> simp_all

/-- C7, as amended. For every decoded enrichment payload in which one of the
keys regNum, mark, model, year, owner, owner.name, owner.surname or
owner.patronymic is missing or holds a value of the wrong type (a string for
the six text fields, a JSON number for year, an object for owner),
`CreateEnriched` panics instead of returning an error value, and it executes
no statement: no insert is performed. -/
theorem createEnriched_malformed_panics (c : Call) (kvs : List (String × JSON))
    (h : specPayload (JSON.toGoMap kvs []) = false) :
    PGStore.CreateEnriched c (JSON.toGoMap kvs []) = (.panicked, []) := by
  rcases wellTyped_false_of_not_spec _ h with hw | _
  · exact createEnriched_illTyped_panics c _ hw
  · exact createEnriched_decoded_panics c kvs

/-- Witness of C7 as amended: a payload without the key "mark". -/
theorem createEnriched_malformed_panics_witness :
    specPayload (JSON.toGoMap [("regNum", .string "X001AA")] []) = false ∧
    PGStore.CreateEnriched Call.ok (JSON.toGoMap [("regNum", .string "X001AA")] [])
      = (.panicked, []) :=
  ⟨by decide, createEnriched_malformed_panics Call.ok _ (by decide)⟩

/-- Counterexample to C7 as stated. For the decoded payload
`{"regNum": "X001AA"}`, whose key "mark" is missing, `CreateEnriched` does
not return an error value: it panics. In a batch of two identifiers of which
the first is answered with that payload, the panic terminates the process:
the goroutine of the second identifier, however often it is scheduled
afterwards, executes none of its seven statements. -/
theorem createEnriched_missing_key_returns_no_error :
    decodeInfo (some (.object [("regNum", .string "X001AA")]))
      = .ok (JSON.toGoMap [("regNum", .string "X001AA")] []) ∧
    (¬ ∃ err : Error, (PGStore.CreateEnriched Call.ok
        (JSON.toGoMap [("regNum", .string "X001AA")] [])).1 = .ret (some err)) ∧
    (handleCreate (.ok ["X001AA", "B456DE"]) (pgEnv truncatedFirstCalls) DB.empty
      [.main, .main, .unit 0, .unit 0, .unit 0, .unit 0, .unit 0, .unit 0, .unit 0, .unit 0,
        .unit 1, .unit 1, .unit 1, .unit 1, .unit 1, .unit 1, .unit 1]).crashed = true ∧
    (handleCreate (.ok ["X001AA", "B456DE"]) (pgEnv truncatedFirstCalls) DB.empty
      [.main, .main, .unit 0, .unit 0, .unit 0, .unit 0, .unit 0, .unit 0, .unit 0, .unit 0,
        .unit 1, .unit 1, .unit 1, .unit 1, .unit 1, .unit 1, .unit 1]).threads.map List.length
      = [0, 7] ∧
    (executedBy (handleCreate (.ok ["X001AA", "B456DE"]) (pgEnv truncatedFirstCalls) DB.empty
      [.main, .main, .unit 0, .unit 0, .unit 0, .unit 0, .unit 0, .unit 0, .unit 0, .unit 0,
        .unit 1, .unit 1, .unit 1, .unit 1, .unit 1, .unit 1, .unit 1]) 1).length = 0 := by
  refine ⟨rfl, ?_, by decide, by decide, by decide⟩
  rintro ⟨err, h⟩
  rw [createEnriched_decoded_panics] at h
  cases h

/-! ### Deadlines -/

/-- Deadline check of `Delete`: it comes first, the timeout error wins. -/
theorem delete_deadline (c : Call) (id : String) (h : c.deadline = true) :
    (PGStore.Delete c id).1 = some errTimeout := by
  simp [PGStore.Delete, h]

/-- Deadline check of `Update`: it comes first, the timeout error wins. -/
theorem update_deadline (c : Call) (id newNum : String) (db : DB) (h : c.deadline = true) :
    (PGStore.Update c id newNum db).1 = ("", some errTimeout) := by
  simp [PGStore.Update, h]

/-- In `Create`, `GetById`, `CreateEnriched` and `Migrate` the error of the
driver is returned before the deadline is looked at. -/
theorem driver_error_before_deadline (err : Error) (num id : String) (db : DB) (row : GoMap)
    (hrow : wellTyped row = true) (e1 : Option Error) :
    (PGStore.Create ⟨some err, true⟩ num).1 = some err ∧
    PGStore.GetById ⟨some err, true⟩ id db = ("", some err) ∧
    (PGStore.CreateEnriched ⟨some err, true⟩ row).1 = .ret (some err) ∧
    (e1 = none → PGStore.Migrate e1 (some err) true = some err) ∧
    PGStore.Migrate (some err) e1 true = some err := by
  refine ⟨rfl, rfl, ?_, ?_, rfl⟩
  · have := extract_isSome_iff row
    rw [hrow] at this
    cases hq : PGStore.extract row with
    | none => rw [hq] at this; simp at this
    | some r => simp [PGStore.CreateEnriched, hq]
  · intro h; subst h; rfl

/-- C10. `Create`, called while the driver reports an error and the deadline
of the context has passed, returns the error of the driver, which is not the
"timeout" error. -/
theorem create_deadline_returns_driver_error :
    (PGStore.Create ⟨some ⟨"pq: canceling statement due to user request"⟩, true⟩ "X001AA").1
      = some ⟨"pq: canceling statement due to user request"⟩ ∧
    (PGStore.Create ⟨some ⟨"pq: canceling statement due to user request"⟩, true⟩ "X001AA").1
      ≠ some errTimeout := by
  decide

/-! ### Update and lookup by id -/

theorem updateRows_absent (rows : List (String × String)) (id newNum : String)
    (h : id ∉ rows.map Prod.fst) : updateRows rows id newNum = rows := by
  induction rows with
  | nil => rfl
  | cons r rest ih =>
    simp only [List.map_cons, List.mem_cons, not_or] at h
    have hr : ¬ r.1 = id := fun e => h.1 e.symm
    simp only [updateRows, List.map_cons, hr, if_false]
    exact congrArg _ (ih h.2)

theorem returningIds_absent (rows : List (String × String)) (id : String)
    (h : id ∉ rows.map Prod.fst) : returningIds rows id = [] := by
  induction rows with
  | nil => rfl
  | cons r rest ih =>
    simp only [List.map_cons, List.mem_cons, not_or] at h
    have hr : ¬ r.1 = id := fun e => h.1 e.symm
    simpa [returningIds, List.filter_cons, hr] using ih h.2

theorem returningIds_present (rows : List (String × String)) (id : String)
    (h : id ∈ rows.map Prod.fst) : (returningIds rows id).headD "" = id := by
  induction rows with
  | nil => simp at h
  | cons r rest ih =>
    by_cases hr : r.1 = id
    · simp [returningIds, List.filter_cons, hr]
    · have h2 : id ∈ rest.map Prod.fst := by
        simp only [List.map_cons, List.mem_cons] at h
        rcases h with h | h
        · exact absurd h.symm hr
        · exact h
      simpa [returningIds, List.filter_cons, hr] using ih h2

theorem selectById_updateRows (rows : List (String × String)) (id newNum : String)
    (h : id ∈ rows.map Prod.fst) :
    ∃ tl, selectById (updateRows rows id newNum) id = newNum :: tl := by
  induction rows with
  | nil => simp at h
  | cons r rest ih =>
    by_cases hr : r.1 = id
    · exact ⟨_, by simp [selectById, updateRows, List.filter_cons, hr]; rfl⟩
    · have h2 : id ∈ rest.map Prod.fst := by
        simp only [List.map_cons, List.mem_cons] at h
        rcases h with h | h
        · exact absurd h.symm hr
        · exact h
      obtain ⟨tl, htl⟩ := ih h2
      exact ⟨tl, by simpa [selectById, updateRows, List.filter_cons, hr] using htl⟩

theorem updateRows_others (rows : List (String × String)) (id newNum : String) :
    (updateRows rows id newNum).filter (fun r => r.1 ≠ id) = rows.filter (fun r => r.1 ≠ id) := by
  induction rows with
  | nil => rfl
  | cons r rest ih =>
    unfold updateRows at ih ⊢
    by_cases hr : r.1 = id
    · simpa [List.filter_cons, hr] using ih
    · simpa [List.filter_cons, hr] using ih

theorem updateRows_ids (rows : List (String × String)) (id newNum : String) :
    (updateRows rows id newNum).map Prod.fst = rows.map Prod.fst := by
  induction rows with
  | nil => rfl
  | cons r rest ih =>
    have ih2 : List.map Prod.fst (List.map
        (fun r => if r.1 = id then (r.1, newNum) else r) rest) = List.map Prod.fst rest := ih
    by_cases hr : r.1 = id
    · simp [updateRows, hr, ih2]
    · simp [updateRows, hr, ih2]

/-- C8. Over a table whose ids are non-empty, with the database answering in
time: `Update` of an absent id returns the error "no rows affected" and leaves
the tables as they are; `Update` of a present id returns that id without
error, a following `GetById` returns the new number, and the other rows, the
ids and their order are unchanged. -/
theorem update_then_getById (db : DB) (id newNum : String)
    (hne : ∀ r ∈ db.numbers, r.1 ≠ "") :
    (id ∉ db.numbers.map Prod.fst →
      (PGStore.Update Call.ok id newNum db).1 = ("", some errNoRows) ∧
      execAll db (PGStore.Update Call.ok id newNum db).2 = db) ∧
    (id ∈ db.numbers.map Prod.fst →
      (PGStore.Update Call.ok id newNum db).1 = (id, none) ∧
      PGStore.GetById Call.ok id (execAll db (PGStore.Update Call.ok id newNum db).2)
        = (newNum, none) ∧
      (execAll db (PGStore.Update Call.ok id newNum db).2).numbers.filter (fun r => r.1 ≠ id)
        = db.numbers.filter (fun r => r.1 ≠ id) ∧
      (execAll db (PGStore.Update Call.ok id newNum db).2).numbers.map Prod.fst
        = db.numbers.map Prod.fst ∧
      (execAll db (PGStore.Update Call.ok id newNum db).2).enriched = db.enriched) := by
  have hst : (PGStore.Update Call.ok id newNum db).2 = [Stmt.updateNumber id newNum] := by
    simp only [PGStore.Update, Call.ok]
    split
    · rfl
    · split <;> rfl
  rw [hst]
  constructor
  · intro h
    have h1 := returningIds_absent db.numbers id h
    have h2 := updateRows_absent db.numbers id newNum h
    simp [PGStore.Update, Call.ok, h1, execAll, Stmt.exec, h2]
  · intro h
    have h1 : (returningIds db.numbers id).head?.getD "" = id := by
      simpa using returningIds_present db.numbers id h
    have hid : id ≠ "" := by
      obtain ⟨r, hr, rfl⟩ := List.mem_map.1 h
      exact hne r hr
    obtain ⟨tl, htl⟩ := selectById_updateRows db.numbers id newNum h
    refine ⟨?_, ?_, ?_, ?_, ?_⟩
    · simp [PGStore.Update, Call.ok, h1, hid]
    · simp [PGStore.GetById, Call.ok, execAll, Stmt.exec, htl]
    · simpa [execAll, Stmt.exec] using updateRows_others db.numbers id newNum
    · simpa [execAll, Stmt.exec] using updateRows_ids db.numbers id newNum
    · simp [execAll, Stmt.exec]

/-- Witness of C8: the table of the spec, id "2" updated, id "7" absent. -/
theorem update_then_getById_witness :
    (∀ r ∈ (⟨[("1", "A123BC"), ("2", "B456DE"), ("3", "A199XY")], 4, []⟩ : DB).numbers,
      r.1 ≠ "") ∧
    (PGStore.Update Call.ok "7" "X001AA"
      ⟨[("1", "A123BC"), ("2", "B456DE"), ("3", "A199XY")], 4, []⟩).1
      = ("", some errNoRows) ∧
    (PGStore.Update Call.ok "2" "X001AA"
      ⟨[("1", "A123BC"), ("2", "B456DE"), ("3", "A199XY")], 4, []⟩).1 = ("2", none) ∧
    PGStore.GetById Call.ok "2" (execAll
      ⟨[("1", "A123BC"), ("2", "B456DE"), ("3", "A199XY")], 4, []⟩
      (PGStore.Update Call.ok "2" "X001AA"
        ⟨[("1", "A123BC"), ("2", "B456DE"), ("3", "A199XY")], 4, []⟩).2) = ("X001AA", none) :=
  have hne : ∀ r ∈ (⟨[("1", "A123BC"), ("2", "B456DE"), ("3", "A199XY")], 4, []⟩ : DB).numbers,
      r.1 ≠ "" := by decide
  ⟨hne,
   ((update_then_getById ⟨[("1", "A123BC"), ("2", "B456DE"), ("3", "A199XY")], 4, []⟩
      "7" "X001AA" hne).1 (by decide)).1,
   ((update_then_getById ⟨[("1", "A123BC"), ("2", "B456DE"), ("3", "A199XY")], 4, []⟩
      "2" "X001AA" hne).2 (by decide)).1,
   ((update_then_getById ⟨[("1", "A123BC"), ("2", "B456DE"), ("3", "A199XY")], 4, []⟩
      "2" "X001AA" hne).2 (by decide)).2.1⟩

/-! ### handleList -/

/-- C9. With no query parameter `handleList` responds 400 and calls no
lookup. With exactly one of `id`, `prefix`, `region` non-empty it calls
exactly the lookup of that parameter, with its value, and responds 200 with
the result when the lookup returns no error, 500 with the message of the
error when it returns one. -/
theorem handleList_one_parameter (st : Store) (id pref region : String) :
    (id = "" → pref = "" → region = "" →
      handleList st id pref region = (.ret ⟨400, .error "no args respond"⟩, [])) ∧
    (id ≠ "" → pref = "" → region = "" →
      (handleList st id pref region).2 = [.getById id] ∧
      (∀ number, st.GetById id = .ret (number, none) →
        (handleList st id pref region).1 = .ret ⟨200, .str number⟩) ∧
      (∀ number err, st.GetById id = .ret (number, some err) →
        (handleList st id pref region).1 = .ret ⟨500, .error err.msg⟩)) ∧
    (id = "" → pref ≠ "" → region = "" →
      (handleList st id pref region).2 = [.getByPrefix pref] ∧
      (∀ numbers, st.GetByPrefix pref = .ret (numbers, none) →
        (handleList st id pref region).1 = .ret ⟨200, .strs numbers⟩) ∧
      (∀ numbers err, st.GetByPrefix pref = .ret (numbers, some err) →
        (handleList st id pref region).1 = .ret ⟨500, .error err.msg⟩)) ∧
    (id = "" → pref = "" → region ≠ "" →
      (handleList st id pref region).2 = [.getByRegion region] ∧
      (∀ numbers, st.GetByRegion region = .ret (numbers, none) →
        (handleList st id pref region).1 = .ret ⟨200, .strs numbers⟩) ∧
      (∀ numbers err, st.GetByRegion region = .ret (numbers, some err) →
        (handleList st id pref region).1 = .ret ⟨500, .error err.msg⟩)) := by
  refine ⟨?_, ?_, ?_, ?_⟩
  · rintro rfl rfl rfl
    simp [handleList, respondError, errNoArgs]
  · rintro hid rfl rfl
    refine ⟨?_, ?_, ?_⟩
    · simp only [handleList, hid, ne_eq, not_false_eq_true, if_true]
      split <;> rfl
    · intro number h
      simp [handleList, hid, h]
    · intro number err h
      simp [handleList, hid, h, respondError]
  · rintro rfl hp rfl
    refine ⟨?_, ?_, ?_⟩
    · simp only [handleList, hp, ne_eq, not_true_eq_false, not_false_eq_true, if_true, if_false]
      split <;> rfl
    · intro numbers h
      simp [handleList, hp, h]
    · intro numbers err h
      simp [handleList, hp, h, respondError]
  · rintro rfl rfl hr
    refine ⟨?_, ?_, ?_⟩
    · simp only [handleList, hr, ne_eq, not_true_eq_false, not_false_eq_true, if_true, if_false]
      split <;> rfl
    · intro numbers h
      simp [handleList, hr, h]
    · intro numbers err h
      simp [handleList, hr, h, respondError]


/-! ### Steps of a request -/

@[simp] theorem apply_threads (a : Action) (s : State) : (a.apply s).threads = s.threads := by
  cases a <;> first | rfl | (simp only [Action.apply]; split <;> rfl)

@[simp] theorem apply_trace (a : Action) (s : State) : (a.apply s).trace = s.trace := by
  cases a <;> first | rfl | (simp only [Action.apply]; split <;> rfl)

@[simp] theorem apply_launched (a : Action) (s : State) : (a.apply s).launched = s.launched := by
  cases a <;> first | rfl | (simp only [Action.apply]; split <;> rfl)

@[simp] theorem apply_waited (a : Action) (s : State) : (a.apply s).waited = s.waited := by
  cases a <;> first | rfl | (simp only [Action.apply]; split <;> rfl)

@[simp] theorem apply_blocked (a : Action) (s : State) : (a.apply s).blocked = s.blocked := by
  cases a <;> first | rfl | (simp only [Action.apply]; split <;> rfl)

@[simp] theorem apply_aborted (a : Action) (s : State) : (a.apply s).aborted = s.aborted := by
  cases a <;> first | rfl | (simp only [Action.apply]; split <;> rfl)

@[simp] theorem apply_response (a : Action) (s : State) : (a.apply s).response = s.response := by
  cases a <;> first | rfl | (simp only [Action.apply]; split <;> rfl)

@[simp] theorem apply_regNums (a : Action) (s : State) : (a.apply s).regNums = s.regNums := by
  cases a <;> first | rfl | (simp only [Action.apply]; split <;> rfl)

@[simp] theorem apply_wg (a : Action) (s : State) : (a.apply s).wg = s.wg + bal a := by
  cases a with
  | wgAdd => rfl
  | wgDone => simp only [Action.apply, bal]; split <;> rfl
  | _ => simp [Action.apply, bal]

@[simp] theorem apply_crashed (a : Action) (s : State) :
    (a.apply s).crashed = (s.crashed || a.isPanic) := by
  cases a with
  | wgDone => simp only [Action.apply, Action.isPanic]; split <;> simp
  | _ => simp [Action.apply, Action.isPanic]

@[simp] theorem apply_db (a : Action) (s : State) : (a.apply s).db = execAll s.db a.stmts := by
  cases a with
  | wgDone => simp only [Action.apply, Action.stmts, execAll]; split <;> rfl
  | _ => simp [Action.apply, Action.stmts, execAll]

/-- What a statement does to the waiters and the semaphore: only the `Done`
that brings the counter to zero with a waiter registered changes them. -/
theorem apply_waiters_sema (a : Action) (s : State) :
    ((a.apply s).waiters = s.waiters ∧ (a.apply s).sema = s.sema ∧
      ¬ ((a.apply s).wg = 0 ∧ s.waiters ≠ 0 ∧ bal a = -1)) ∨
    ((a.apply s).wg = 0 ∧ s.waiters ≠ 0 ∧ (a.apply s).waiters = 0 ∧
      (a.apply s).sema = s.sema + s.waiters) := by
  cases a with
  | wgDone =>
    simp only [Action.apply, bal]
    split
    · rename_i h; right; exact ⟨h.1, h.2, rfl, rfl⟩
    · rename_i h; left; exact ⟨rfl, rfl, fun h' => h ⟨h'.1, h'.2.1⟩⟩
  | _ => left; simp [Action.apply, bal]

/-- Shape of a step of the handler. -/
theorem stepMain_cases (s : State) :
    stepMain s = s ∨
    (s.response = none ∧ s.aborted = false ∧ s.launched < s.threads.length ∧
      stepMain s = { s with launched := s.launched + 1 }) ∨
    (s.response = none ∧ s.aborted = false ∧ ¬ s.launched < s.threads.length ∧
      s.waited = true ∧ stepMain s = { s with response := some ⟨200, .number ⟨s.regNums⟩⟩ }) ∨
    (s.response = none ∧ s.aborted = false ∧ ¬ s.launched < s.threads.length ∧
      s.waited = false ∧ s.blocked = false ∧ s.wg = 0 ∧ stepMain s = { s with waited := true }) ∨
    (s.response = none ∧ s.aborted = false ∧ ¬ s.launched < s.threads.length ∧
      s.waited = false ∧ s.blocked = false ∧ s.wg ≠ 0 ∧
      stepMain s = { s with waiters := s.waiters + 1, blocked := true }) ∨
    (s.response = none ∧ s.aborted = false ∧ ¬ s.launched < s.threads.length ∧
      s.waited = false ∧ s.blocked = true ∧ s.sema ≠ 0 ∧ (s.wg ≠ 0 ∨ s.waiters ≠ 0) ∧
      stepMain s = { s with sema := s.sema - 1, blocked := false, aborted := true }) ∨
    (s.response = none ∧ s.aborted = false ∧ ¬ s.launched < s.threads.length ∧
      s.waited = false ∧ s.blocked = true ∧ s.sema ≠ 0 ∧ s.wg = 0 ∧ s.waiters = 0 ∧
      stepMain s = { s with sema := s.sema - 1, blocked := false, waited := true }) := by
  unfold stepMain
  cases hr : s.response with
  | some r => left; simp
  | none =>
    cases ha : s.aborted with
    | true => left; simp
    | false =>
      by_cases hl : s.launched < s.threads.length
      · right; left; simp [hl]
      · cases hw : s.waited with
        | true => right; right; left; simp [hl]
        | false =>
          cases hb : s.blocked with
          | false =>
            by_cases hz : s.wg = 0
            · right; right; right; left; simp [hl, hz]
            · right; right; right; right; left; simp [hl, hz]
          | true =>
            by_cases hs : s.sema = 0
            · left; simp [hl, hs]
            · by_cases hz : s.wg ≠ 0 ∨ s.waiters ≠ 0
              · right; right; right; right; right; left
                simp only [Option.isSome_none, Bool.or_self, Bool.false_eq_true, if_false,
                  if_neg hl, Bool.not_true, if_neg hs, if_pos hz]
                exact ⟨trivial, trivial, hl, trivial, trivial, hs, hz, trivial⟩
              · have hz' : s.wg = 0 ∧ s.waiters = 0 := by
                  constructor
                  · by_contra h; exact hz (Or.inl h)
                  · by_contra h; exact hz (Or.inr h)
                right; right; right; right; right; right
                simp only [Option.isSome_none, Bool.or_self, Bool.false_eq_true, if_false,
                  if_neg hl, Bool.not_true, if_neg hs, if_neg hz]
                exact ⟨trivial, trivial, hl, trivial, trivial, hs, hz'.1, hz'.2, trivial⟩

/-- A step of the handler touches neither the goroutines, the trace, the
tables, the counter nor the identifiers, and does not crash the process. -/
theorem stepMain_fields (s : State) :
    (stepMain s).threads = s.threads ∧ (stepMain s).trace = s.trace ∧
    (stepMain s).crashed = s.crashed ∧ (stepMain s).db = s.db ∧
    (stepMain s).wg = s.wg ∧ (stepMain s).regNums = s.regNums := by
  rcases stepMain_cases s with h | ⟨_, _, _, h⟩ | ⟨_, _, _, _, h⟩ | ⟨_, _, _, _, _, _, h⟩ |
    ⟨_, _, _, _, _, _, h⟩ | ⟨_, _, _, _, _, _, _, h⟩ | ⟨_, _, _, _, _, _, _, _, h⟩ <;>
  rw [h] <;> exact ⟨rfl, rfl, rfl, rfl, rfl, rfl⟩

/-- Shape of a step: the state is unchanged, or the handler moves, or a
launched goroutine executes its next statement. -/
theorem step_cases (s : State) (t : Tid) :
    step s t = s ∨
    (t = .main ∧ s.crashed = false ∧ step s t = stepMain s) ∨
    (∃ i a rest, t = .unit i ∧ s.crashed = false ∧ i < s.launched ∧
      s.threads.getD i [] = a :: rest ∧
      step s t = a.apply { s with threads := s.threads.set i rest, trace := s.trace ++ [(i, a)] }) := by
  by_cases hc : s.crashed = true
  · left; simp [step, hc]
  · have hc' : s.crashed = false := by simpa using hc
    cases t with
    | main => right; left; exact ⟨rfl, hc', by simp [step, hc']⟩
    | unit i =>
      by_cases hi : i < s.launched
      · cases hg : s.threads.getD i [] with
        | nil =>
          left
          simp only [step, stepUnit, hc', Bool.false_eq_true, if_false, if_pos hi, hg]
        | cons a rest =>
          right; right
          exact ⟨i, a, rest, rfl, hc', hi, hg, by
            simp only [step, stepUnit, hc', Bool.false_eq_true, if_false, if_pos hi, hg]⟩
      · left; simp only [step, stepUnit, hc', Bool.false_eq_true, if_false, if_neg hi]

theorem run_append (s : State) (l1 l2 : List Tid) : run s (l1 ++ l2) = run (run s l1) l2 := by
  simp [run, List.foldl_append]

theorem run_cons (s : State) (t : Tid) (l : List Tid) : run s (t :: l) = run (step s t) l := rfl

/-- An invariant of `step` holds along every schedule. -/
theorem run_invariant (P : State → Prop) (hstep : ∀ s t, P s → P (step s t))
    (s : State) (h : P s) (sched : List Tid) : P (run s sched) := by
  induction sched generalizing s with
  | nil => exact h
  | cons t l ih => exact ih (step s t) (hstep s t h)

theorem getD_lt_of_ne_nil {α : Type} (l : List (List α)) (i : Nat) (h : l.getD i [] ≠ []) :
    i < l.length := by
  by_contra hn
  exact h (List.getD_eq_default _ _ (Nat.le_of_not_lt hn))

theorem getD_set_self {α : Type} (l : List (List α)) (i : Nat) (x : List α) (h : i < l.length) :
    (l.set i x).getD i [] = x := by
  induction l generalizing i with
  | nil => simp at h
  | cons y ys ih =>
    cases i with
    | zero => simp
    | succ k => simpa using ih k (by simpa using h)

theorem getD_set_ne {α : Type} (l : List (List α)) (i j : Nat) (x : List α) (h : j ≠ i) :
    (l.set i x).getD j [] = l.getD j [] := by
  induction l generalizing i j with
  | nil => simp
  | cons y ys ih =>
    cases i with
    | zero =>
      cases j with
      | zero => exact absurd rfl h
      | succ m => simp
    | succ k =>
      cases j with
      | zero => simp
      | succ m => simpa using ih k m (by omega)

theorem mem_getD {α : Type} (l : List (List α)) (i : Nat) (h : l.getD i [] ≠ []) :
    l.getD i [] ∈ l := by
  have hi := getD_lt_of_ne_nil l i h
  rw [List.getD_eq_getElem _ _ hi]
  exact List.getElem_mem _


theorem sum_map_set {M : Type} [AddCommMonoid M] (f : List Action → M) (l : List (List Action))
    (i : Nat) (x y : List Action) (h : l.getD i [] = x) (hi : i < l.length) :
    ((l.set i y).map f).sum + f x = (l.map f).sum + f y := by
  induction l generalizing i with
  | nil => simp at hi
  | cons z zs ih =>
    cases i with
    | zero =>
      have hz : z = x := by simpa using h
      subst hz
      simp only [List.set_cons_zero, List.map_cons, List.sum_cons]
      abel
    | succ k =>
      have h2 : zs.getD k [] = x := by simpa using h
      have := ih k h2 (by simpa using hi)
      simp only [List.set_cons_succ, List.map_cons, List.sum_cons, add_assoc, this]

/-! ### The goroutine body -/

theorem panicFree_iff (as : List Action) :
    panicFree as = true ↔ ∀ a ∈ as, a.isPanic = false := by
  simp [panicFree]

theorem unitOfWork_create_panicked (v : String) (u : UnitEnv)
    (h : (u.create v).1 = .panicked) :
    unitOfWork v u = [.wgAdd, .create v (u.create v).2, .panic] := by
  simp [unitOfWork, h]

theorem unitOfWork_create_failed (v : String) (u : UnitEnv) (err : Error)
    (h : (u.create v).1 = .ret (some err)) :
    unitOfWork v u = [.wgAdd, .create v (u.create v).2, .logError "create error", .wgDone] := by
  simp [unitOfWork, h]

theorem unitOfWork_get_failed (v : String) (u : UnitEnv) (e : Error)
    (h : (u.create v).1 = .ret none) (hg : u.get = .err e) :
    unitOfWork v u = [.wgAdd, .create v (u.create v).2, .logInfo "create number success",
      .get (url ++ v), .logError "get url %s error: %v", .wgDone] := by
  simp [unitOfWork, h, hg]

theorem unitOfWork_status (v : String) (u : UnitEnv) (status : Nat) (body : Option JSON)
    (h : (u.create v).1 = .ret none) (hg : u.get = .resp status body) (hs : status ≠ 200) :
    unitOfWork v u = [.wgAdd, .create v (u.create v).2, .logInfo "create number success",
      .get (url ++ v), .wgDone, .logError "create error", .bodyClose] := by
  simp [unitOfWork, h, hg, hs]

theorem unitOfWork_decode_failed (v : String) (u : UnitEnv) (body : Option JSON) (e : Error)
    (h : (u.create v).1 = .ret none) (hg : u.get = .resp 200 body)
    (hd : decodeInfo body = .error e) :
    unitOfWork v u = [.wgAdd, .create v (u.create v).2, .logInfo "create number success",
      .get (url ++ v), .decode, .logError "decode response body error: %v", .wgDone,
      .bodyClose] := by
  simp [unitOfWork, h, hg, hd]

theorem unitOfWork_enriched_panicked (v : String) (u : UnitEnv) (body : Option JSON)
    (info : GoMap) (h : (u.create v).1 = .ret none) (hg : u.get = .resp 200 body)
    (hd : decodeInfo body = .ok info) (he : (u.createEnriched info).1 = .panicked) :
    unitOfWork v u = [.wgAdd, .create v (u.create v).2, .logInfo "create number success",
      .get (url ++ v), .decode, .createEnriched info (u.createEnriched info).2, .bodyClose,
      .panic] := by
  simp [unitOfWork, h, hg, hd, he]

theorem unitOfWork_enriched_failed (v : String) (u : UnitEnv) (body : Option JSON)
    (info : GoMap) (err : Error) (h : (u.create v).1 = .ret none) (hg : u.get = .resp 200 body)
    (hd : decodeInfo body = .ok info) (he : (u.createEnriched info).1 = .ret (some err)) :
    unitOfWork v u = [.wgAdd, .create v (u.create v).2, .logInfo "create number success",
      .get (url ++ v), .decode, .createEnriched info (u.createEnriched info).2,
      .logError "enriching error", .wgDone, .bodyClose] := by
  simp [unitOfWork, h, hg, hd, he]

theorem unitOfWork_success (v : String) (u : UnitEnv) (body : Option JSON)
    (info : GoMap) (h : (u.create v).1 = .ret none) (hg : u.get = .resp 200 body)
    (hd : decodeInfo body = .ok info) (he : (u.createEnriched info).1 = .ret none) :
    unitOfWork v u = [.wgAdd, .create v (u.create v).2, .logInfo "create number success",
      .get (url ++ v), .decode, .createEnriched info (u.createEnriched info).2,
      .logInfo "enriching success", .wgDone, .bodyClose] := by
  simp [unitOfWork, h, hg, hd, he]

/-- The exit paths of the goroutine body: the script of a unit of work is one
of eight lists; six end by a return after one `wg.Done()`, two by a panic
without any. -/
theorem unitOfWork_paths (v : String) (u : UnitEnv) :
    (doneCount (unitOfWork v u) = 1 ∧ balance (unitOfWork v u) = 0 ∧
      ∀ a ∈ unitOfWork v u, a.isPanic = false) ∨
    (doneCount (unitOfWork v u) = 0 ∧ balance (unitOfWork v u) = 1 ∧
      panicFree (unitOfWork v u) = false ∧
      ((u.create v).1 = .panicked ∨ ∃ info, (u.createEnriched info).1 = .panicked)) := by
  cases hc : (u.create v).1 with
  | panicked =>
    right
    rw [unitOfWork_create_panicked v u hc]
    exact ⟨rfl, rfl, rfl, Or.inl rfl⟩
  | ret e =>
    cases e with
    | some err =>
      left
      rw [unitOfWork_create_failed v u err hc]
      exact ⟨rfl, rfl, by simp [Action.isPanic]⟩
    | none =>
      cases hg : u.get with
      | err e =>
        left
        rw [unitOfWork_get_failed v u e hc hg]
        exact ⟨rfl, rfl, by simp [Action.isPanic]⟩
      | resp status body =>
        by_cases hs : status = 200
        · subst hs
          cases hd : decodeInfo body with
          | error e =>
            left
            rw [unitOfWork_decode_failed v u body e hc hg hd]
            exact ⟨rfl, rfl, by simp [Action.isPanic]⟩
          | ok info =>
            cases he : (u.createEnriched info).1 with
            | panicked =>
              right
              rw [unitOfWork_enriched_panicked v u body info hc hg hd he]
              exact ⟨rfl, rfl, rfl, Or.inr ⟨info, he⟩⟩
            | ret e2 =>
              cases e2 with
              | some err =>
                left
                rw [unitOfWork_enriched_failed v u body info err hc hg hd he]
                exact ⟨rfl, rfl, by simp [Action.isPanic]⟩
              | none =>
                left
                rw [unitOfWork_success v u body info hc hg hd he]
                exact ⟨rfl, rfl, by simp [Action.isPanic]⟩
        · left
          rw [unitOfWork_status v u status body hc hg hs]
          exact ⟨rfl, rfl, by simp [Action.isPanic]⟩

/-- When its store calls return, a unit of work takes back what it added to
the wait group, has no panic and calls `wg.Done()` exactly once. -/
theorem unitOfWork_returns (v : String) (u : UnitEnv) (h : u.returns) :
    balance (unitOfWork v u) = 0 ∧ panicFree (unitOfWork v u) = true ∧
    doneCount (unitOfWork v u) = 1 := by
  rcases unitOfWork_paths v u with ⟨h1, h2, h3⟩ | ⟨_, _, _, h4 | ⟨info, h4⟩⟩
  · exact ⟨h2, (panicFree_iff _).2 h3, h1⟩
  · exact absurd h4 (h.1 v)
  · exact absurd h4 (h.2 info)

theorem scriptsFrom_length (env : Nat → UnitEnv) (regNums : List String) :
    ∀ k, (scriptsFrom env k regNums).length = regNums.length := by
  induction regNums with
  | nil => intro k; rfl
  | cons v vs ih => intro k; simp [scriptsFrom, ih]

theorem scriptsFrom_mem (env : Nat → UnitEnv) (regNums : List String) :
    ∀ k l, l ∈ scriptsFrom env k regNums → ∃ v j, l = unitOfWork v (env j) := by
  induction regNums with
  | nil => intro k l h; simp [scriptsFrom] at h
  | cons v vs ih =>
    intro k l h
    simp only [scriptsFrom, List.mem_cons] at h
    rcases h with h | h
    · exact ⟨v, k, h⟩
    · exact ih (k + 1) l h

theorem scriptsFrom_getD (env : Nat → UnitEnv) (regNums : List String) :
    ∀ k i v, regNums.get? i = some v →
      (scriptsFrom env k regNums).getD i [] = unitOfWork v (env (k + i)) := by
  induction regNums with
  | nil => intro k i v h; simp at h
  | cons w ws ih =>
    intro k i v h
    cases i with
    | zero =>
      have hw : w = v := by simpa using h
      subst hw
      rfl
    | succ m =>
      have h2 : ws.get? m = some v := by simpa using h
      have := ih (k + 1) m v h2
      simp only [scriptsFrom, List.getD_cons_succ, this]
      congr 2
      omega

theorem scripts_getD (env : Nat → UnitEnv) (regNums : List String) (i : Nat) (v : String)
    (h : regNums.get? i = some v) :
    (scripts env regNums).getD i [] = unitOfWork v (env i) := by
  have := scriptsFrom_getD env regNums 0 i v h
  simpa [scripts] using this

/-- A goroutine body without panic takes back what it added to the wait
group and calls `wg.Done()` exactly once. -/
theorem unitOfWork_panicFree (v : String) (u : UnitEnv) (h : panicFree (unitOfWork v u) = true) :
    balance (unitOfWork v u) = 0 ∧ doneCount (unitOfWork v u) = 1 := by
  rcases unitOfWork_paths v u with ⟨h1, h2, _⟩ | ⟨_, _, h3, _⟩
  · exact ⟨h2, h1⟩
  · rw [h] at h3; cases h3

theorem scriptsFrom_balance (env : Nat → UnitEnv) (regNums : List String) :
    ∀ k, (∀ l ∈ scriptsFrom env k regNums, panicFree l = true) →
      ((scriptsFrom env k regNums).map balance).sum = 0 := by
  induction regNums with
  | nil => intro k _; rfl
  | cons v vs ih =>
    intro k h
    have h1 := (unitOfWork_panicFree v (env k) (h _ (by simp [scriptsFrom]))).1
    have h2 := ih (k + 1) (fun l hl => h l (by simp [scriptsFrom, hl]))
    simp [scriptsFrom, h1, h2]

/-! ### The wait group -/

set_option exponentiation.threshold 2000 in
/-- With the payload of the spec the goroutine leaves by the panic of
`CreateEnriched` as well: the path that ends in "enriching success" is never
taken by a unit of work served by `PGStore`. -/
theorem spec_payload_goroutine_panics :
    doneCount (unitOfWork "X001AA" (enrichedEnv 0)) = 0 ∧
    panicFree (unitOfWork "X001AA" (enrichedEnv 0)) = false ∧
    (handleCreate (.ok ["X001AA"]) enrichedEnv DB.empty
      [.main, .unit 0, .unit 0, .unit 0, .unit 0, .unit 0, .unit 0, .unit 0, .unit 0]).crashed
      = true := by
  decide

/-- Counterexample to C3 as stated. Identifier "X001AA" is persisted and the
enrichment service answers 200 with `{"regNum": "X001AA"}`: the goroutine
leaves by the panic of `CreateEnriched` without any `wg.Done()`. Once it has
run to its end it has executed no `wgDone`, the counter of the wait group is
still 1 and the process has crashed. -/
theorem truncated_payload_exit_without_done :
    doneCount (unitOfWork "X001AA" (truncatedEnv 0)) = 0 ∧
    (handleCreate (.ok ["X001AA"]) truncatedEnv DB.empty
      [.main, .unit 0, .unit 0, .unit 0, .unit 0, .unit 0, .unit 0, .unit 0,
        .unit 0]).threads.map List.length = [0] ∧
    doneCount (executedBy (handleCreate (.ok ["X001AA"]) truncatedEnv DB.empty
      [.main, .unit 0, .unit 0, .unit 0, .unit 0, .unit 0, .unit 0, .unit 0, .unit 0]) 0) = 0 ∧
    (handleCreate (.ok ["X001AA"]) truncatedEnv DB.empty
      [.main, .unit 0, .unit 0, .unit 0, .unit 0, .unit 0, .unit 0, .unit 0, .unit 0]).wg = 1 ∧
    (handleCreate (.ok ["X001AA"]) truncatedEnv DB.empty
      [.main, .unit 0, .unit 0, .unit 0, .unit 0, .unit 0, .unit 0, .unit 0, .unit 0]).crashed
      = true := by
  decide

/-- Counterexample to C5 as stated, in two requests. The body decodes to
["X001AA"], the identifier is persisted and the enrichment service answers 200
with `{"regNum": "X001AA"}`: when the goroutine runs before the handler passes
`wg.Wait()`, the panic of `CreateEnriched` terminates the process and no
response is written. The body decodes to ["X001AA", "B456DE"] and both inserts
fail, no store call panics: when the second goroutine executes `wg.Add(1)`
after the `Done` of the first has released the handler, `wg.Wait()` panics on
waking up; both goroutines run to their ends and no response is written. -/
theorem panic_before_response :
    (handleCreate (.ok ["X001AA"]) truncatedEnv DB.empty
      [.main, .unit 0, .unit 0, .unit 0, .unit 0, .unit 0, .unit 0, .unit 0, .unit 0,
        .main, .main, .main, .main]).crashed = true ∧
    (handleCreate (.ok ["X001AA"]) truncatedEnv DB.empty
      [.main, .unit 0, .unit 0, .unit 0, .unit 0, .unit 0, .unit 0, .unit 0, .unit 0,
        .main, .main, .main, .main]).waited = false ∧
    (handleCreate (.ok ["X001AA"]) truncatedEnv DB.empty
      [.main, .unit 0, .unit 0, .unit 0, .unit 0, .unit 0, .unit 0, .unit 0, .unit 0,
        .main, .main, .main, .main]).response = none ∧
    panicFree (unitOfWork "X001AA" (pgEnv allFailCalls 0)) = true ∧
    panicFree (unitOfWork "B456DE" (pgEnv allFailCalls 1)) = true ∧
    (handleCreate (.ok ["X001AA", "B456DE"]) (pgEnv allFailCalls) DB.empty
      lateAddSchedule).crashed = false ∧
    (handleCreate (.ok ["X001AA", "B456DE"]) (pgEnv allFailCalls) DB.empty
      lateAddSchedule).aborted = true ∧
    (handleCreate (.ok ["X001AA", "B456DE"]) (pgEnv allFailCalls) DB.empty
      lateAddSchedule).threads.map List.length = [0, 0] ∧
    (handleCreate (.ok ["X001AA", "B456DE"]) (pgEnv allFailCalls) DB.empty
      lateAddSchedule).response = none := by
  decide

/-- Once the process has crashed no schedule changes the state. -/
theorem run_crashed (sched : List Tid) : ∀ s : State, s.crashed = true → run s sched = s := by
  induction sched with
  | nil => intro s _; rfl
  | cons t l ih =>
    intro s h
    have : step s t = s := by simp [step, h]
    rw [run_cons, this]
    exact ih s h

/-- C4. With the batch ["X001AA"] the handler can launch the goroutine, pass
`wg.Wait()` and respond before the goroutine has executed anything, its
`wg.Add(1)` included: the counter is still zero when the handler waits. The
identifier is persisted only after the response. -/
theorem response_before_unit_of_work :
    (unitOfWork "X001AA" (unavailableEnv 0)).head?.map bal = some 1 ∧
    (handleCreate (.ok ["X001AA"]) unavailableEnv DB.empty [.main, .main, .main]).response
      = some ⟨200, .number ⟨["X001AA"]⟩⟩ ∧
    (handleCreate (.ok ["X001AA"]) unavailableEnv DB.empty [.main, .main, .main]).launched = 1 ∧
    (handleCreate (.ok ["X001AA"]) unavailableEnv DB.empty [.main, .main, .main]).trace.length
      = 0 ∧
    (handleCreate (.ok ["X001AA"]) unavailableEnv DB.empty
      [.main, .main, .main]).threads.map List.length = [7] ∧
    (handleCreate (.ok ["X001AA"]) unavailableEnv DB.empty [.main, .main, .main]).db.numbers
      = [] ∧
    (handleCreate (.ok ["X001AA"]) unavailableEnv DB.empty
      [.main, .main, .main, .unit 0, .unit 0]).db.numbers = [("1", "X001AA")] ∧
    (handleCreate (.ok ["X001AA"]) unavailableEnv DB.empty
      [.main, .main, .main, .unit 0, .unit 0]).wg = 1 := by
  decide

/-! ### Goroutines follow their scripts -/

theorem executedBy_append_self (s : State) (i : Nat) (a : Action) (s' : State)
    (h : s'.trace = s.trace ++ [(i, a)]) : executedBy s' i = executedBy s i ++ [a] := by
  simp [executedBy, h, List.filter_append]

theorem executedBy_append_ne (s : State) (i j : Nat) (a : Action) (s' : State)
    (h : s'.trace = s.trace ++ [(i, a)]) (hj : j ≠ i) : executedBy s' j = executedBy s j := by
  have : ¬ i = j := fun e => hj e.symm
  simp [executedBy, h, List.filter_append, this]

theorem executedBy_same_trace (s s' : State) (j : Nat) (h : s'.trace = s.trace) :
    executedBy s' j = executedBy s j := by
  simp [executedBy, h]

theorem scripted_step (all : List (List Action)) (s : State) (t : Tid) (h : Scripted all s) :
    Scripted all (step s t) := by
  rcases step_cases s t with h' | ⟨_, _, h'⟩ | ⟨i, a, rest, _, _, _, hg, h'⟩
  · rw [h']; exact h
  · intro j
    obtain ⟨h1, h2, _⟩ := stepMain_fields s
    rw [h', h1, executedBy_same_trace s _ j h2]
    exact h j
  · have hne : s.threads.getD i [] ≠ [] := by rw [hg]; simp
    have hi := getD_lt_of_ne_nil s.threads i hne
    have htr : (step s t).trace = s.trace ++ [(i, a)] := by rw [h']; simp
    have hth : (step s t).threads = s.threads.set i rest := by rw [h']; simp
    intro j
    by_cases hj : j = i
    · subst hj
      rw [executedBy_append_self s j a _ htr, hth, getD_set_self _ _ _ hi, ← h j, hg]
      simp
    · rw [executedBy_append_ne s i j a _ htr hj, hth, getD_set_ne _ _ _ _ hj]
      exact h j

theorem scripted_start (env : Nat → UnitEnv) (db : DB) (regNums : List String) :
    Scripted (scripts env regNums) (start env db regNums) := by
  intro j
  simp [executedBy, start]

/-- Under every schedule, what a goroutine has executed is a prefix of its
script: followed by what it has still to execute, it is the script. -/
theorem scripted_run (env : Nat → UnitEnv) (db : DB) (regNums : List String)
    (sched : List Tid) : Scripted (scripts env regNums) (run (start env db regNums) sched) :=
  run_invariant (Scripted (scripts env regNums)) (scripted_step _) _
    (scripted_start env db regNums) sched

theorem traced_mem_script (env : Nat → UnitEnv) (db : DB) (regNums : List String)
    (sched : List Tid) (i : Nat) (v : String) (hv : regNums.get? i = some v) (a : Action)
    (ha : (i, a) ∈ (run (start env db regNums) sched).trace) : a ∈ unitOfWork v (env i) := by
  have h := scripted_run env db regNums sched i
  rw [scripts_getD env regNums i v hv] at h
  rw [← h]
  apply List.mem_append_left
  simp only [executedBy, List.mem_map, List.mem_filter]
  exact ⟨(i, a), ⟨ha, by simp⟩, rfl⟩

/-- C3, as amended. A goroutine whose store calls return, so that it leaves
by one of the returns of its body (persist failure, transport failure, status
other than 200, decode failure, error of `CreateEnriched`, success), has under
every schedule executed `wg.Done()` at most once, and exactly once when it has
run to its end. -/
theorem done_once_when_returning (env : Nat → UnitEnv) (db : DB) (regNums : List String)
    (sched : List Tid) (i : Nat) (v : String) (hv : regNums.get? i = some v)
    (hpf : panicFree (unitOfWork v (env i)) = true) :
    doneCount (executedBy (run (start env db regNums) sched) i) ≤ 1 ∧
    ((run (start env db regNums) sched).threads.getD i [] = [] →
      doneCount (executedBy (run (start env db regNums) sched) i) = 1) := by
  have h := scripted_run env db regNums sched i
  rw [scripts_getD env regNums i v hv] at h
  have h1 := (unitOfWork_panicFree v (env i) hpf).2
  rw [← h] at h1
  constructor
  · simp only [doneCount, List.countP_append] at h1 ⊢
    omega
  · intro he
    rw [he, List.append_nil] at h1
    exact h1


/-- Witness of C3 as amended: the goroutine of a persisted identifier that
the enrichment service answers with 503, run to its end. -/
theorem done_once_when_returning_witness :
    ["X001AA"].get? 0 = some "X001AA" ∧
    panicFree (unitOfWork "X001AA" (unavailableEnv 0)) = true ∧
    (run (start unavailableEnv DB.empty ["X001AA"])
      [.main, .unit 0, .unit 0, .unit 0, .unit 0, .unit 0, .unit 0, .unit 0]).threads.getD 0 []
      = [] ∧
    doneCount (executedBy (run (start unavailableEnv DB.empty ["X001AA"])
      [.main, .unit 0, .unit 0, .unit 0, .unit 0, .unit 0, .unit 0, .unit 0]) 0) = 1 :=
  ⟨rfl, rfl, rfl,
    (done_once_when_returning unavailableEnv DB.empty ["X001AA"]
      [.main, .unit 0, .unit 0, .unit 0, .unit 0, .unit 0, .unit 0, .unit 0] 0 "X001AA"
      rfl rfl).2 rfl⟩

/-! ### Independence of the units of work -/

theorem step_main_fields (s : State) :
    (step s .main).threads = s.threads ∧ (step s .main).trace = s.trace ∧
    (step s .main).crashed = s.crashed ∧ (step s .main).db = s.db := by
  rcases step_cases s .main with h | ⟨_, _, h⟩ | ⟨i, a, rest, ht, _⟩
  · rw [h]; exact ⟨rfl, rfl, rfl, rfl⟩
  · obtain ⟨h1, h2, h3, h4, _⟩ := stepMain_fields s
    rw [h]; exact ⟨h1, h2, h3, h4⟩
  · cases ht

theorem step_main_launched (i : Nat) (s : State) (h : Quiet i s) :
    (step s .main).launched
      = if s.crashed = false ∧ s.launched < s.threads.length then s.launched + 1
        else s.launched := by
  by_cases hc : s.crashed = true
  · have : step s .main = s := by simp [step, hc]
    rw [this, if_neg (fun hcond => by rw [hc] at hcond; cases hcond.1)]
  · have hc' : s.crashed = false := by simpa using hc
    have hstep : step s .main = stepMain s := by simp [step, hc']
    rw [hstep]
    rcases stepMain_cases s with h' | ⟨_, _, hl, h'⟩ | ⟨_, _, hl, _, h'⟩ |
      ⟨_, _, hl, _, _, _, h'⟩ | ⟨_, _, hl, _, _, _, h'⟩ | ⟨_, _, hl, _, _, _, _, h'⟩ |
      ⟨_, _, hl, _, _, _, _, _, h'⟩
    · by_cases hl : s.launched < s.threads.length
      · exfalso
        have hr : s.response = none := by
          cases hr : s.response with
          | none => rfl
          | some r => exact absurd hl (h.2 (Or.inr (Or.inr (Or.inr (by simp [hr])))))
        have ha : s.aborted = false := by
          cases ha : s.aborted with
          | false => rfl
          | true => exact absurd hl (h.2 (Or.inr (Or.inr (Or.inl ha))))
        have : (stepMain s).launched = s.launched + 1 := by
          simp [stepMain, hr, ha, hl]
        rw [h'] at this
        omega
      · rw [h', if_neg (fun hcond => hl hcond.2)]
    · rw [h', if_pos ⟨hc', hl⟩]
    · rw [h', if_neg (fun hcond => hl hcond.2)]
    · rw [h', if_neg (fun hcond => hl hcond.2)]
    · rw [h', if_neg (fun hcond => hl hcond.2)]
    · rw [h', if_neg (fun hcond => hl hcond.2)]
    · rw [h', if_neg (fun hcond => hl hcond.2)]

theorem step_unit_eq (s : State) (j : Nat) :
    step s (.unit j) =
      if s.crashed = false ∧ j < s.launched then
        match s.threads.getD j [] with
        | a :: rest =>
          a.apply { s with threads := s.threads.set j rest, trace := s.trace ++ [(j, a)] }
        | [] => s
      else s := by
  by_cases hc : s.crashed = true
  · simp [step, hc]
  · have hc' : s.crashed = false := by simpa using hc
    by_cases hj : j < s.launched
    · simp only [step, stepUnit, hc', Bool.false_eq_true, if_false, if_pos hj, true_and]
    · simp only [step, stepUnit, hc', Bool.false_eq_true, if_false, if_neg hj, true_and]

theorem quiet_step (i : Nat) (s : State) (t : Tid) (h : Quiet i s) : Quiet i (step s t) := by
  obtain ⟨hp, himp⟩ := h
  rcases step_cases s t with h' | ⟨_, _, h'⟩ | ⟨j, a, rest, _, _, _, hg, h'⟩
  · rw [h']; exact ⟨hp, himp⟩
  · rw [h']
    rcases stepMain_cases s with h2 | ⟨_, _, hl, h2⟩ | ⟨_, _, hl, _, h2⟩ |
      ⟨_, _, hl, _, _, _, h2⟩ | ⟨_, _, hl, _, _, _, h2⟩ | ⟨_, _, hl, _, _, _, _, h2⟩ |
      ⟨_, _, hl, _, _, _, _, _, h2⟩
    · rw [h2]; exact ⟨hp, himp⟩
    · rw [h2]
      refine ⟨hp, ?_⟩
      intro hw
      exact absurd hl (himp hw)
    · rw [h2]; exact ⟨hp, fun _ => hl⟩
    · rw [h2]; exact ⟨hp, fun _ => hl⟩
    · rw [h2]; exact ⟨hp, fun _ => hl⟩
    · rw [h2]; exact ⟨hp, fun _ => hl⟩
    · rw [h2]; exact ⟨hp, fun _ => hl⟩
  · have hne : s.threads.getD j [] ≠ [] := by rw [hg]; simp
    have hj := getD_lt_of_ne_nil s.threads j hne
    rw [h']
    refine ⟨?_, ?_⟩
    · simp only [apply_threads]
      by_cases hji : i = j
      · subst hji
        rw [getD_set_self _ _ _ hj]
        intro b hb
        exact hp b (by rw [hg]; exact List.mem_cons_of_mem _ hb)
      · rw [getD_set_ne _ _ _ _ hji]
        exact hp
    · simpa using himp

theorem agreeOff_symm (i : Nat) (s s' : State) (h : AgreeOff i s s') : AgreeOff i s' s :=
  ⟨h.1.symm, h.2.1.symm, h.2.2.1.symm, fun j hj => ⟨(h.2.2.2 j hj).1.symm, (h.2.2.2 j hj).2.symm⟩⟩

theorem agreeOff_trans (i : Nat) (s1 s2 s3 : State) (h : AgreeOff i s1 s2)
    (h' : AgreeOff i s2 s3) : AgreeOff i s1 s3 :=
  ⟨h.1.trans h'.1, h.2.1.trans h'.2.1, h.2.2.1.trans h'.2.2.1,
    fun j hj => ⟨(h.2.2.2 j hj).1.trans (h'.2.2.2 j hj).1,
      (h.2.2.2 j hj).2.trans (h'.2.2.2 j hj).2⟩⟩

/-- A step of goroutine `i`, which has no panic ahead, is not seen by the
other goroutines. -/
theorem agreeOff_step_self (i : Nat) (s : State) (h : Quiet i s) :
    AgreeOff i s (step s (.unit i)) := by
  rcases step_cases s (.unit i) with h' | ⟨ht, _⟩ | ⟨j, a, rest, ht, _, _, hg, h'⟩
  · rw [h']; exact ⟨rfl, rfl, rfl, fun _ _ => ⟨rfl, rfl⟩⟩
  · cases ht
  · have hji : i = j := by injection ht
    subst hji
    have ha : a.isPanic = false := h.1 a (by rw [hg]; exact List.mem_cons_self _ _)
    rw [h']
    refine ⟨by simp, by simp [ha], by simp, ?_⟩
    intro k hk
    refine ⟨?_, ?_⟩
    · simp only [apply_threads]
      rw [getD_set_ne _ _ _ _ hk]
    · exact (executedBy_append_ne s i k a _ (by simp) hk).symm

/-- The same step of a thread other than goroutine `i`, made from two states
that agree off `i`, leads to states that agree off `i`. -/
theorem agreeOff_step_other (i : Nat) (s s' : State) (t : Tid) (ht : t ≠ .unit i)
    (h : AgreeOff i s s') (hq : Quiet i s) (hq' : Quiet i s') :
    AgreeOff i (step s t) (step s' t) := by
  obtain ⟨hl, hc, hlen, hoff⟩ := h
  cases t with
  | main =>
    obtain ⟨h1, h2, h3, _⟩ := step_main_fields s
    obtain ⟨h1', h2', h3', _⟩ := step_main_fields s'
    refine ⟨?_, ?_, ?_, ?_⟩
    · rw [step_main_launched i s hq, step_main_launched i s' hq', hl, hc, hlen]
    · rw [h3, h3', hc]
    · rw [h1, h1', hlen]
    · intro j hj
      rw [h1, h1', executedBy_same_trace s _ j h2, executedBy_same_trace s' _ j h2']
      exact hoff j hj
  | unit j =>
    have hji : j ≠ i := fun e => ht (by rw [e])
    by_cases hcond : s.crashed = false ∧ j < s.launched
    · have hcond' : s'.crashed = false ∧ j < s'.launched := by
        rw [← hc, ← hl]; exact hcond
      cases hg : s.threads.getD j [] with
      | nil =>
        have hg' : s'.threads.getD j [] = [] := by rw [← (hoff j hji).1, hg]
        have e1 : step s (.unit j) = s := by rw [step_unit_eq, if_pos hcond, hg]
        have e2 : step s' (.unit j) = s' := by rw [step_unit_eq, if_pos hcond', hg']
        rw [e1, e2]
        exact ⟨hl, hc, hlen, hoff⟩
      | cons a rest =>
        have hg' : s'.threads.getD j [] = a :: rest := by rw [← (hoff j hji).1, hg]
        have hj : j < s.threads.length :=
          getD_lt_of_ne_nil s.threads j (by rw [hg]; simp)
        have hj' : j < s'.threads.length := hlen ▸ hj
        obtain ⟨n1, hn1⟩ : ∃ n1, n1 = a.apply
            { s with threads := s.threads.set j rest, trace := s.trace ++ [(j, a)] } := ⟨_, rfl⟩
        obtain ⟨n2, hn2⟩ : ∃ n2, n2 = a.apply
            { s' with threads := s'.threads.set j rest, trace := s'.trace ++ [(j, a)] } :=
          ⟨_, rfl⟩
        have e1 : step s (.unit j) = n1 := by rw [step_unit_eq, if_pos hcond, hg, hn1]
        have e2 : step s' (.unit j) = n2 := by rw [step_unit_eq, if_pos hcond', hg', hn2]
        have t1 : n1.trace = s.trace ++ [(j, a)] := by rw [hn1]; simp
        have t2 : n2.trace = s'.trace ++ [(j, a)] := by rw [hn2]; simp
        have th1 : n1.threads = s.threads.set j rest := by rw [hn1]; simp
        have th2 : n2.threads = s'.threads.set j rest := by rw [hn2]; simp
        rw [e1, e2]
        refine ⟨by rw [hn1, hn2]; simpa using hl, by rw [hn1, hn2]; simp [hc],
          by rw [th1, th2]; simpa using hlen, ?_⟩
        intro k hk
        refine ⟨?_, ?_⟩
        · rw [th1, th2]
          by_cases hkj : k = j
          · subst hkj
            rw [getD_set_self _ _ _ hj, getD_set_self _ _ _ hj']
          · rw [getD_set_ne _ _ _ _ hkj, getD_set_ne _ _ _ _ hkj]
            exact (hoff k hk).1
        · by_cases hkj : k = j
          · subst hkj
            rw [executedBy_append_self s k a n1 t1, executedBy_append_self s' k a n2 t2,
              (hoff k hk).2]
          · rw [executedBy_append_ne s j k a n1 t1 hkj, executedBy_append_ne s' j k a n2 t2 hkj]
            exact (hoff k hk).2
    · have hcond' : ¬ (s'.crashed = false ∧ j < s'.launched) := by
        rw [← hc, ← hl]; exact hcond
      have e1 : step s (.unit j) = s := by rw [step_unit_eq, if_neg hcond]
      have e2 : step s' (.unit j) = s' := by rw [step_unit_eq, if_neg hcond']
      rw [e1, e2]
      exact ⟨hl, hc, hlen, hoff⟩

theorem agreeOff_step (i : Nat) (s s' : State) (t : Tid)
    (h : AgreeOff i s s' ∧ Quiet i s ∧ Quiet i s') :
    AgreeOff i (step s t) (step s' t) ∧ Quiet i (step s t) ∧ Quiet i (step s' t) := by
  obtain ⟨ha, hq, hq'⟩ := h
  refine ⟨?_, quiet_step i s t hq, quiet_step i s' t hq'⟩
  by_cases ht : t = .unit i
  · subst ht
    exact agreeOff_trans i _ s _ (agreeOff_symm i _ _ (agreeOff_step_self i s hq))
      (agreeOff_trans i _ s' _ ha (agreeOff_step_self i s' hq'))
  · exact agreeOff_step_other i s s' t ht ha hq hq'

theorem agreeOff_run (i : Nat) (sched : List Tid) : ∀ (s s' : State),
    AgreeOff i s s' ∧ Quiet i s ∧ Quiet i s' →
    AgreeOff i (run s sched) (run s' sched) := by
  induction sched with
  | nil => intro s s' h; exact h.1
  | cons t l ih => intro s s' h; exact ih _ _ (agreeOff_step i s s' t h)

theorem scriptsFrom_update (env : Nat → UnitEnv) (alt : UnitEnv) (i : Nat)
    (regNums : List String) : ∀ k j, k + j ≠ i →
      (scriptsFrom (Function.update env i alt) k regNums).getD j []
        = (scriptsFrom env k regNums).getD j [] := by
  induction regNums with
  | nil => intro k j _; rfl
  | cons v vs ih =>
    intro k j hne
    cases j with
    | zero =>
      have : k ≠ i := by omega
      simp [scriptsFrom, Function.update_noteq this]
    | succ m =>
      have := ih (k + 1) m (by omega)
      simpa [scriptsFrom] using this

/-- Replacing the answers of the collaborators to unit of work `i` by others,
when goroutine `i` panics under neither, changes nothing of what the other
goroutines execute, under any schedule. -/
theorem others_unaffected (env : Nat → UnitEnv) (db : DB) (regNums : List String) (i : Nat)
    (v : String) (hv : regNums.get? i = some v) (alt : UnitEnv)
    (h : panicFree (unitOfWork v (env i)) = true) (halt : panicFree (unitOfWork v alt) = true)
    (sched : List Tid) (j : Nat) (hj : j ≠ i) :
    executedBy (run (start (Function.update env i alt) db regNums) sched) j
      = executedBy (run (start env db regNums) sched) j := by
  have hq : Quiet i (start env db regNums) := by
    refine ⟨?_, ?_⟩
    · have : (start env db regNums).threads.getD i [] = unitOfWork v (env i) :=
        scripts_getD env regNums i v hv
      rw [this]
      exact (panicFree_iff _).1 h
    · intro hw
      rcases hw with hw | hw <;> simp [start] at hw
  have hq' : Quiet i (start (Function.update env i alt) db regNums) := by
    refine ⟨?_, ?_⟩
    · have : (start (Function.update env i alt) db regNums).threads.getD i []
          = unitOfWork v (Function.update env i alt i) :=
        scripts_getD _ regNums i v hv
      rw [this, Function.update_same]
      exact (panicFree_iff _).1 halt
    · intro hw
      rcases hw with hw | hw <;> simp [start] at hw
  have ha : AgreeOff i (start (Function.update env i alt) db regNums)
      (start env db regNums) := by
    refine ⟨rfl, rfl, ?_, ?_⟩
    · simp [start, scripts, scriptsFrom_length]
    · intro k hk
      refine ⟨?_, rfl⟩
      exact scriptsFrom_update env alt i regNums 0 k (by omega)
  exact ((agreeOff_run i sched _ _ ⟨ha, hq', hq⟩).2.2.2 j hj).2


/-- C1. When `s.store.Create(v)` returns an error to the unit of work at
position `i`, then under every schedule goroutine `i` executes neither the
enrichment GET nor `CreateEnriched`; and what every other goroutine executes
is what it would execute had the collaborators answered unit `i` in any other
way (persist succeeded, or failed otherwise) that lets goroutine `i` return. -/
theorem persist_failure_skips_enrichment (env : Nat → UnitEnv) (db : DB)
    (regNums : List String) (i : Nat) (v : String) (err : Error)
    (hv : regNums.get? i = some v) (hc : ((env i).create v).1 = .ret (some err))
    (sched : List Tid) :
    (∀ a, (i, a) ∈ (handleCreate (.ok regNums) env db sched).trace →
      a.isGet = false ∧ a.isCreateEnriched = false) ∧
    (∀ alt : UnitEnv, panicFree (unitOfWork v alt) = true → ∀ j, j ≠ i →
      executedBy (handleCreate (.ok regNums) (Function.update env i alt) db sched) j
        = executedBy (handleCreate (.ok regNums) env db sched) j) := by
  have hscript := unitOfWork_create_failed v (env i) err hc
  constructor
  · intro a ha
    have hm := traced_mem_script env db regNums sched i v hv a ha
    rw [hscript] at hm
    simp only [List.mem_cons, List.mem_singleton, List.not_mem_nil, or_false] at hm
    rcases hm with rfl | rfl | rfl | rfl <;> exact ⟨rfl, rfl⟩
  · intro alt halt j hj
    have hpf : panicFree (unitOfWork v (env i)) = true := by rw [hscript]; rfl
    exact others_unaffected env db regNums i v hv alt hpf halt sched j hj

/-- Witness of C1: the insert of the first of two identifiers fails. -/
theorem persist_failure_skips_enrichment_witness :
    ["X001AA", "B456DE"].get? 0 = some "X001AA" ∧
    ((pgEnv firstFailsCalls 0).create "X001AA").1 = .ret (some ⟨"pq: connection refused"⟩) ∧
    (∀ a, (0, a) ∈ (handleCreate (.ok ["X001AA", "B456DE"]) (pgEnv firstFailsCalls) DB.empty
        [.main, .main, .unit 0, .unit 1, .unit 0, .unit 1, .unit 0, .unit 0, .main]).trace →
      a.isGet = false ∧ a.isCreateEnriched = false) :=
  ⟨rfl, rfl, (persist_failure_skips_enrichment (pgEnv firstFailsCalls) DB.empty
    ["X001AA", "B456DE"] 0 "X001AA" ⟨"pq: connection refused"⟩ rfl rfl
    [.main, .main, .unit 0, .unit 1, .unit 0, .unit 1, .unit 0, .unit 0, .main]).1⟩

/-! ### Rows of the batch -/

theorem exec_insert_prefix (db : DB) (x : Stmt) (h : x.isInsert = true) :
    db.numbers <+: (x.exec db).numbers := by
  cases x with
  | insertNumber n => exact List.prefix_append _ _
  | deleteNumber id => cases h
  | updateNumber id n => cases h
  | insertEnriched row => exact List.prefix_refl _

theorem execAll_insert_prefix (st : List Stmt) : ∀ (db : DB),
    (∀ x ∈ st, x.isInsert = true) → db.numbers <+: (execAll db st).numbers := by
  induction st with
  | nil => intro db _; exact List.prefix_refl _
  | cons x xs ih =>
    intro db h
    have h1 := exec_insert_prefix db x (h x (List.mem_cons_self _ _))
    have h2 := ih (x.exec db) (fun y hy => h y (List.mem_cons_of_mem _ hy))
    exact h1.trans h2

theorem execAll_inserted (st : List Stmt) : ∀ (db : DB),
    (∀ x ∈ st, x.isInsert = true) → ∀ n, Stmt.insertNumber n ∈ st →
      ∃ id, (id, n) ∈ (execAll db st).numbers := by
  induction st with
  | nil => intro db _ n hn; cases hn
  | cons x xs ih =>
    intro db h n hn
    have hxs : ∀ y ∈ xs, y.isInsert = true := fun y hy => h y (List.mem_cons_of_mem _ hy)
    rcases List.mem_cons.1 hn with hx | hx
    · subst hx
      have hp := execAll_insert_prefix xs ((Stmt.insertNumber n).exec db) hxs
      refine ⟨toString db.nextId, hp.subset ?_⟩
      simp [Stmt.exec]
    · exact ih (x.exec db) hxs n hx

theorem insertsOnly_step (s : State) (t : Tid) (h : InsertsOnly s) :
    InsertsOnly (step s t) ∧ s.db.numbers <+: (step s t).db.numbers := by
  obtain ⟨h1, h2⟩ := h
  rcases step_cases s t with h' | ⟨_, _, h'⟩ | ⟨i, a, rest, _, _, _, hg, h'⟩
  · rw [h']; exact ⟨⟨h1, h2⟩, List.prefix_refl _⟩
  · obtain ⟨f1, f2, _, f4, _⟩ := stepMain_fields s
    rw [h']
    refine ⟨⟨?_, ?_⟩, ?_⟩
    · rw [f1]; exact h1
    · rw [f2, f4]; exact h2
    · rw [f4]
  · have hne : s.threads.getD i [] ≠ [] := by rw [hg]; simp
    have hmem : (a :: rest) ∈ s.threads := hg ▸ mem_getD s.threads i hne
    have ha : ∀ x ∈ a.stmts, x.isInsert = true := h1 _ hmem a (List.mem_cons_self _ _)
    have hp : s.db.numbers <+: (execAll s.db a.stmts).numbers :=
      execAll_insert_prefix a.stmts s.db ha
    rw [h']
    refine ⟨⟨?_, ?_⟩, by simpa using hp⟩
    · intro l hl b hb
      simp only [apply_threads] at hl
      rcases List.mem_or_eq_of_mem_set hl with hl | hl
      · exact h1 l hl b hb
      · subst hl
        exact h1 _ hmem b (List.mem_cons_of_mem _ hb)
    · intro p hp' n hn
      simp only [apply_trace, List.mem_append, List.mem_singleton] at hp'
      simp only [apply_db]
      rcases hp' with hp' | hp'
      · obtain ⟨id, hid⟩ := h2 p hp' n hn
        exact ⟨id, hp.subset hid⟩
      · subst hp'
        exact execAll_inserted a.stmts s.db ha n hn

theorem insertsOnly_run (sched : List Tid) : ∀ (s : State), InsertsOnly s →
    InsertsOnly (run s sched) ∧ s.db.numbers <+: (run s sched).db.numbers := by
  induction sched with
  | nil => intro s h; exact ⟨h, List.prefix_refl _⟩
  | cons t l ih =>
    intro s h
    obtain ⟨h1, h2⟩ := insertsOnly_step s t h
    obtain ⟨h3, h4⟩ := ih (step s t) h1
    exact ⟨h3, h2.trans h4⟩

/-- Statements of the store calls of `PGStore` that `handleCreate` makes:
inserts only. -/
theorem pgUnit_inserts (c : Call) (g : GetResult) (c' : Call) (v : String) :
    ∀ a ∈ unitOfWork v (pgUnit c g c'), ∀ x ∈ a.stmts, x.isInsert = true := by
  have hcr : ∀ x ∈ (PGStore.Create c v).2, x.isInsert = true := by
    intro x hx
    unfold PGStore.Create at hx
    split at hx
    · cases hx
    · split at hx <;> simp at hx <;> subst hx <;> rfl
  have hen : ∀ info, ∀ x ∈ (PGStore.CreateEnriched c' info).2, x.isInsert = true := by
    intro info x hx
    unfold PGStore.CreateEnriched at hx
    split at hx
    · cases hx
    · split at hx
      · cases hx
      · split at hx <;> simp at hx <;> subst hx <;> rfl
  have key : ∀ a ∈ unitOfWork v (pgUnit c g c'),
      a.stmts = [] ∨ a.stmts = (PGStore.Create c v).2 ∨
        ∃ info, a.stmts = (PGStore.CreateEnriched c' info).2 := by
    intro a ha
    unfold unitOfWork at ha
    simp only [List.mem_append, List.mem_cons, List.mem_singleton, List.not_mem_nil,
      or_false] at ha
    rcases ha with (rfl | rfl) | ha
    · exact Or.inl rfl
    · exact Or.inr (Or.inl rfl)
    · split at ha
      · simp only [List.mem_singleton] at ha; subst ha; exact Or.inl rfl
      · simp only [List.mem_cons, List.mem_singleton, List.not_mem_nil, or_false] at ha
        rcases ha with rfl | rfl <;> exact Or.inl rfl
      · simp only [List.mem_append, List.mem_cons, List.mem_singleton, List.not_mem_nil,
          or_false] at ha
        rcases ha with (rfl | rfl) | ha
        · exact Or.inl rfl
        · exact Or.inl rfl
        · split at ha
          · simp only [List.mem_cons, List.mem_singleton, List.not_mem_nil, or_false] at ha
            rcases ha with rfl | rfl <;> exact Or.inl rfl
          · split at ha
            · simp only [List.mem_cons, List.mem_singleton, List.not_mem_nil, or_false] at ha
              rcases ha with rfl | rfl | rfl <;> exact Or.inl rfl
            · simp only [List.mem_append, List.mem_cons, List.mem_singleton,
                List.not_mem_nil, or_false] at ha
              rcases ha with rfl | ha
              · exact Or.inl rfl
              · split at ha
                · simp only [List.mem_cons, List.mem_singleton, List.not_mem_nil,
                    or_false] at ha
                  rcases ha with rfl | rfl | rfl <;> exact Or.inl rfl
                · simp only [List.mem_append, List.mem_cons, List.mem_singleton,
                    List.not_mem_nil, or_false] at ha
                  rcases ha with rfl | ha
                  · exact Or.inr (Or.inr ⟨_, rfl⟩)
                  · split at ha <;>
                      simp only [List.mem_cons, List.mem_singleton, List.not_mem_nil,
                        or_false] at ha <;>
                      rcases ha with rfl | rfl | rfl <;> exact Or.inl rfl
  intro a ha x hx
  rcases key a ha with h | h | ⟨info, h⟩
  · rw [h] at hx; cases hx
  · rw [h] at hx; exact hcr x hx
  · rw [h] at hx; exact hen info x hx

theorem insertsOnly_start (calls : Nat → Call × GetResult × Call) (db : DB)
    (regNums : List String) : InsertsOnly (start (pgEnv calls) db regNums) := by
  refine ⟨?_, ?_⟩
  · intro l hl
    obtain ⟨v, j, rfl⟩ := scriptsFrom_mem (pgEnv calls) regNums 0 l hl
    exact pgUnit_inserts _ _ _ v
  · intro p hp
    simp [start] at hp


theorem create_stmts_of_success (c : Call) (v : String) (h : (PGStore.Create c v).1 = none) :
    (PGStore.Create c v).2 = [.insertNumber v] := by
  obtain ⟨e, d⟩ := c
  cases e with
  | some err => simp [PGStore.Create] at h
  | none =>
    cases d with
    | true => simp [PGStore.Create] at h
    | false => rfl

/-- C2. In a batch served by `PGStore`, when `Create(v)` succeeded for the
unit of work at position `i` and the enrichment service answers it with a
status other than 200, then under every schedule: goroutine `i` never calls
`CreateEnriched`; once it has executed `Create(v)` a row with number `v` is in
table `numbers`; whatever runs afterwards only appends to that table, so no
row of it is removed or altered; and what every other goroutine executes is
what it would execute had the collaborators answered unit `i` in any other way
that lets goroutine `i` return. -/
theorem remote_status_failure_keeps_row (calls : Nat → Call × GetResult × Call) (db : DB)
    (regNums : List String) (i : Nat) (v : String) (status : Nat) (body : Option JSON)
    (hv : regNums.get? i = some v) (hc : (PGStore.Create (calls i).1 v).1 = none)
    (hg : (calls i).2.1 = .resp status body) (hs : status ≠ 200) (sched : List Tid) :
    (∀ a, (i, a) ∈ (handleCreate (.ok regNums) (pgEnv calls) db sched).trace →
      a.isCreateEnriched = false) ∧
    (∀ st, (i, Action.create v st) ∈ (handleCreate (.ok regNums) (pgEnv calls) db sched).trace →
      ∃ id, (id, v) ∈ (handleCreate (.ok regNums) (pgEnv calls) db sched).db.numbers) ∧
    (∀ more, (handleCreate (.ok regNums) (pgEnv calls) db sched).db.numbers <+:
      (handleCreate (.ok regNums) (pgEnv calls) db (sched ++ more)).db.numbers) ∧
    (∀ alt : UnitEnv, panicFree (unitOfWork v alt) = true → ∀ j, j ≠ i →
      executedBy (handleCreate (.ok regNums) (Function.update (pgEnv calls) i alt) db sched) j
        = executedBy (handleCreate (.ok regNums) (pgEnv calls) db sched) j) := by
  have hc' : ((pgEnv calls i).create v).1 = .ret none := by
    simp [pgEnv, pgUnit, hc]
  have hg' : (pgEnv calls i).get = .resp status body := by
    simp [pgEnv, pgUnit, hg]
  have hscript := unitOfWork_status v (pgEnv calls i) status body hc' hg' hs
  have hst : ((pgEnv calls i).create v).2 = [.insertNumber v] :=
    create_stmts_of_success (calls i).1 v hc
  have hinv := insertsOnly_run sched (start (pgEnv calls) db regNums)
    (insertsOnly_start calls db regNums)
  refine ⟨?_, ?_, ?_, ?_⟩
  · intro a ha
    have hm := traced_mem_script (pgEnv calls) db regNums sched i v hv a ha
    rw [hscript] at hm
    simp only [List.mem_cons, List.mem_singleton, List.not_mem_nil, or_false] at hm
    rcases hm with rfl | rfl | rfl | rfl | rfl | rfl | rfl <;> rfl
  · intro st ha
    have hm := traced_mem_script (pgEnv calls) db regNums sched i v hv _ ha
    rw [hscript] at hm
    simp only [List.mem_cons, List.mem_singleton, List.not_mem_nil, or_false] at hm
    have hst' : st = [.insertNumber v] := by
      rcases hm with h | h | h | h | h | h | h
      · cases h
      · injection h with _ h2
        rw [h2, hst]
      · cases h
      · cases h
      · cases h
      · cases h
      · cases h
    subst hst'
    exact hinv.1.2 _ ha v (by simp [Action.stmts])
  · intro more
    show (run (start (pgEnv calls) db regNums) sched).db.numbers <+:
      (run (start (pgEnv calls) db regNums) (sched ++ more)).db.numbers
    rw [run_append]
    exact (insertsOnly_run more _ hinv.1).2
  · intro alt halt j hj
    have hpf : panicFree (unitOfWork v (pgEnv calls i)) = true := by rw [hscript]; rfl
    exact others_unaffected (pgEnv calls) db regNums i v hv alt hpf halt sched j hj

/-- Witness of C2: the second of two identifiers is persisted and answered
503; its row is in the table once its goroutine has run `Create`. -/
theorem remote_status_failure_keeps_row_witness :
    ["X001AA", "B456DE"].get? 1 = some "B456DE" ∧
    (PGStore.Create (firstFailsCalls 1).1 "B456DE").1 = none ∧
    (firstFailsCalls 1).2.1 = .resp 503 none ∧
    (503 : Nat) ≠ 200 ∧
    (∀ a, (1, a) ∈ (handleCreate (.ok ["X001AA", "B456DE"]) (pgEnv firstFailsCalls) DB.empty
        [.main, .main, .unit 1, .unit 1, .unit 0, .unit 1, .unit 1, .unit 1, .unit 1, .unit 1,
          .main]).trace →
      a.isCreateEnriched = false) ∧
    (handleCreate (.ok ["X001AA", "B456DE"]) (pgEnv firstFailsCalls) DB.empty
      [.main, .main, .unit 1, .unit 1, .unit 0, .unit 1, .unit 1, .unit 1, .unit 1, .unit 1,
        .main]).db.numbers = [("1", "B456DE")] :=
  ⟨rfl, rfl, rfl, by decide,
    (remote_status_failure_keeps_row firstFailsCalls DB.empty ["X001AA", "B456DE"] 1 "B456DE"
      503 none rfl rfl rfl (by decide)
      [.main, .main, .unit 1, .unit 1, .unit 0, .unit 1, .unit 1, .unit 1, .unit 1, .unit 1,
        .main]).1,
    by decide⟩


/-! ### The counter of the wait group never goes below zero -/

theorem balance_eq (l : List Action) : balance l = (addCount l : Int) - (doneCount l : Int) := by
  induction l with
  | nil => rfl
  | cons a as ih =>
    cases a <;> simp [balance, bal, addCount, doneCount, List.countP_cons] at ih ⊢ <;> omega

theorem balance_append (p r : List Action) : balance (p ++ r) = balance p + balance r := by
  induction p with
  | nil => simp [balance]
  | cons a as ih => simp [balance, ih, add_assoc]

theorem prefix_balance_nonneg (v : String) (u : UnitEnv) (p r : List Action)
    (h : p ++ r = unitOfWork v u) : 0 ≤ balance p := by
  cases p with
  | nil => simp [balance]
  | cons a p' =>
    have hhead : ∃ rest, unitOfWork v u = .wgAdd :: rest := ⟨_, rfl⟩
    obtain ⟨rest, hrest⟩ := hhead
    have ha : a = .wgAdd := by
      rw [hrest] at h
      injection h
    subst ha
    have hd : doneCount (unitOfWork v u) ≤ 1 := by
      rcases unitOfWork_paths v u with ⟨h1, _⟩ | ⟨h1, _⟩ <;> omega
    have hle : doneCount (Action.wgAdd :: p') ≤ doneCount (unitOfWork v u) := by
      rw [← h]
      simp only [doneCount, List.countP_append]
      omega
    have hadd : 1 ≤ addCount (Action.wgAdd :: p') := by
      simp [addCount, List.countP_cons]
    rw [balance_eq]
    omega

theorem counted_step (all : List (List Action)) (s : State) (t : Tid) (h : Counted all s) :
    Counted all (step s t) := by
  obtain ⟨hw, hlen⟩ := h
  rcases step_cases s t with h' | ⟨_, _, h'⟩ | ⟨i, a, rest, _, _, _, hg, h'⟩
  · rw [h']; exact ⟨hw, hlen⟩
  · obtain ⟨f1, _, _, _, f5, _⟩ := stepMain_fields s
    refine ⟨?_, ?_⟩
    · rw [h', f1, f5]; exact hw
    · rw [h', f1]; exact hlen
  · have hne : s.threads.getD i [] ≠ [] := by rw [hg]; simp
    have hi := getD_lt_of_ne_nil s.threads i hne
    have := sum_map_set balance s.threads i (a :: rest) rest hg hi
    rw [h']
    refine ⟨?_, by simpa using hlen⟩
    simp only [apply_wg, apply_threads, balance] at this ⊢
    omega

theorem sum_le_of_getD : ∀ (l l' : List (List Action)), l.length = l'.length →
    (∀ j, balance (l.getD j []) ≤ balance (l'.getD j [])) →
    (l.map balance).sum ≤ (l'.map balance).sum := by
  intro l
  induction l with
  | nil =>
    intro l' hlen _
    cases l' with
    | nil => simp
    | cons x xs => simp at hlen
  | cons y ys ih =>
    intro l' hlen h
    cases l' with
    | nil => simp at hlen
    | cons x xs =>
      have h0 : balance y ≤ balance x := by simpa using h 0
      have hrest := ih xs (by simpa using hlen) (fun j => by simpa using h (j + 1))
      simp only [List.map_cons, List.sum_cons]
      omega

theorem scriptsFrom_getD_cases (env : Nat → UnitEnv) (regNums : List String) (k j : Nat) :
    (scriptsFrom env k regNums).getD j [] = [] ∨
    ∃ v m, (scriptsFrom env k regNums).getD j [] = unitOfWork v (env m) := by
  by_cases h : (scriptsFrom env k regNums).getD j [] = []
  · exact Or.inl h
  · right
    obtain ⟨v, m, hv⟩ := scriptsFrom_mem env regNums k _ (mem_getD _ j h)
    exact ⟨v, m, hv⟩

theorem wg_nonneg_of (env : Nat → UnitEnv) (regNums : List String) (s : State)
    (hs : Scripted (scripts env regNums) s) (hc : Counted (scripts env regNums) s) :
    0 ≤ s.wg := by
  have hle := sum_le_of_getD _ _ hc.2 (fun j => by
    have hj := hs j
    rcases scriptsFrom_getD_cases env regNums 0 j with h0 | ⟨v, m, hvm⟩
    · have h0' : (scripts env regNums).getD j [] = [] := h0
      rw [h0'] at hj ⊢
      have : s.threads.getD j [] = [] := (List.append_eq_nil.1 hj).2
      rw [this]
    · have hvm' : (scripts env regNums).getD j [] = unitOfWork v (env m) := hvm
      rw [hvm'] at hj ⊢
      have hp := prefix_balance_nonneg v (env m) _ _ hj
      have hb := balance_append (executedBy s j) (s.threads.getD j [])
      rw [hj] at hb
      omega)
  have := hc.1
  omega

theorem counted_run (env : Nat → UnitEnv) (db : DB) (regNums : List String)
    (sched : List Tid) : Counted (scripts env regNums) (run (start env db regNums) sched) :=
  run_invariant (Counted (scripts env regNums)) (counted_step _) _
    ⟨by simp [start], rfl⟩ sched

/-- Under every schedule the counter of the wait group is at least zero:
`wg.Done()` is never executed on a zero counter. -/
theorem wg_nonneg (env : Nat → UnitEnv) (db : DB) (regNums : List String) (sched : List Tid) :
    0 ≤ (run (start env db regNums) sched).wg :=
  wg_nonneg_of env regNums _ (scripted_run env db regNums sched)
    (counted_run env db regNums sched)

/-- `GetByPrefix` and `GetByRegion`, called while the driver reports an
error, end in the panic of the deferred `rows.Close()`. -/
theorem lookup_driver_error_panics (err : Error) (deadline : Bool) (rows : List String) :
    PGStore.GetByPrefix ⟨some err, deadline⟩ rows = .panicked ∧
    PGStore.GetByRegion ⟨some err, deadline⟩ rows = .panicked :=
  ⟨rfl, rfl⟩


/-! ### The response of handleCreate -/

theorem step_regNums (s : State) (t : Tid) : (step s t).regNums = s.regNums := by
  rcases step_cases s t with h | ⟨_, _, h⟩ | ⟨i, a, rest, _, _, _, _, h⟩
  · rw [h]
  · rw [h]; exact (stepMain_fields s).2.2.2.2.2
  · rw [h]; simp

theorem answered_step (s : State) (t : Tid) (h : Answered s) : Answered (step s t) := by
  rcases step_cases s t with h' | ⟨_, _, h'⟩ | ⟨i, a, rest, _, _, _, _, h'⟩
  · rw [h']; exact h
  · rw [h']
    rcases stepMain_cases s with h2 | ⟨_, _, _, h2⟩ | ⟨_, _, _, _, h2⟩ |
      ⟨_, _, _, _, _, _, h2⟩ | ⟨_, _, _, _, _, _, h2⟩ | ⟨_, _, _, _, _, _, _, h2⟩ |
      ⟨_, _, _, _, _, _, _, _, h2⟩
    · rw [h2]; exact h
    · rw [h2]; exact h
    · rw [h2]; exact Or.inr rfl
    · rw [h2]; exact h
    · rw [h2]; exact h
    · rw [h2]; exact h
    · rw [h2]; exact h
  · rw [h']
    unfold Answered at h ⊢
    simpa using h

theorem executed_step (s : State) (t : Tid) (h : Executed s) : Executed (step s t) := by
  rcases step_cases s t with h' | ⟨_, _, h'⟩ | ⟨i, a, rest, _, hc, _, _, h'⟩
  · rw [h']; exact h
  · obtain ⟨_, f2, f3, _⟩ := stepMain_fields s
    intro hcr p hp
    rw [h', f3] at hcr
    rw [h', f2] at hp
    exact h hcr p hp
  · intro hcr p hp
    rw [h'] at hcr hp
    simp only [apply_crashed, Bool.or_eq_false_iff] at hcr
    simp only [apply_trace, List.mem_append, List.mem_singleton] at hp
    rcases hp with hp | hp
    · exact h hc p hp
    · subst hp; exact hcr.2

theorem alive_step (s : State) (t : Tid) (h : Alive s) : Alive (step s t) := by
  obtain ⟨hc, hp⟩ := h
  rcases step_cases s t with h' | ⟨_, _, h'⟩ | ⟨i, a, rest, _, _, _, hg, h'⟩
  · rw [h']; exact ⟨hc, hp⟩
  · obtain ⟨f1, _, f3, _⟩ := stepMain_fields s
    refine ⟨?_, ?_⟩
    · rw [h', f3]; exact hc
    · rw [h', f1]; exact hp
  · have hne : s.threads.getD i [] ≠ [] := by rw [hg]; simp
    have hmem : (a :: rest) ∈ s.threads := hg ▸ mem_getD s.threads i hne
    have ha : a.isPanic = false := hp _ hmem a (List.mem_cons_self _ _)
    rw [h']
    refine ⟨by simp [hc, ha], ?_⟩
    intro l hl b hb
    simp only [apply_threads] at hl
    rcases List.mem_or_eq_of_mem_set hl with hl | hl
    · exact hp l hl b hb
    · subst hl
      exact hp _ hmem b (List.mem_cons_of_mem _ hb)

theorem alive_start (env : Nat → UnitEnv) (db : DB) (regNums : List String)
    (h : ∀ l ∈ scripts env regNums, panicFree l = true) : Alive (start env db regNums) :=
  ⟨rfl, fun l hl => (panicFree_iff l).1 (h l hl)⟩

theorem waiting_apply (a : Action) (n : State) (h : Waiting n) : Waiting (a.apply n) := by
  obtain ⟨h1, h2⟩ := h
  have hwg := apply_wg a n
  have hb := apply_blocked a n
  have hbal : bal a = 1 ∨ bal a = -1 ∨ bal a = 0 := by cases a <;> simp [bal]
  rcases apply_waiters_sema a n with ⟨hw, hs, hno⟩ | ⟨hz, hw0, hw, hs⟩
  · refine ⟨?_, ?_⟩
    · intro hne
      rw [hw] at hne
      have hpos := h1 hne
      rw [hwg]
      rcases hbal with hb1 | hb1 | hb1
      · omega
      · have : ¬ (n.wg + bal a = 0) := by
          intro hzero
          exact hno ⟨by rw [hwg]; exact hzero, hne, hb1⟩
        omega
      · omega
    · intro hbl hse
      rw [hb] at hbl
      rw [hs] at hse
      rw [hw]
      exact h2 hbl hse
  · refine ⟨?_, ?_⟩
    · intro hne
      exact absurd hw hne
    · intro _ hse
      rw [hs] at hse
      omega

/-- The invariant `Waiting` is kept by every step made from a state whose
counter is not negative. -/
theorem waiting_step (s : State) (t : Tid) (h : Waiting s) (hnn : 0 ≤ s.wg) :
    Waiting (step s t) := by
  obtain ⟨h1, h2⟩ := h
  rcases step_cases s t with h' | ⟨_, _, h'⟩ | ⟨i, a, rest, _, _, _, _, h'⟩
  · rw [h']; exact ⟨h1, h2⟩
  · rw [h']
    rcases stepMain_cases s with h3 | ⟨_, _, _, h3⟩ | ⟨_, _, _, _, h3⟩ |
      ⟨_, _, _, _, _, _, h3⟩ | ⟨_, _, _, _, _, hz, h3⟩ | ⟨_, _, _, _, _, _, _, h3⟩ |
      ⟨_, _, _, _, _, _, _, _, h3⟩
    · rw [h3]; exact ⟨h1, h2⟩
    · rw [h3]; exact ⟨h1, h2⟩
    · rw [h3]; exact ⟨h1, h2⟩
    · rw [h3]; exact ⟨h1, h2⟩
    · rw [h3]
      refine ⟨fun _ => ?_, fun _ _ => ?_⟩
      · show 0 < s.wg
        omega
      · show s.waiters + 1 ≠ 0
        omega
    · rw [h3]
      exact ⟨h1, fun hb => by cases hb⟩
    · rw [h3]
      exact ⟨h1, fun hb => by cases hb⟩
  · rw [h']
    exact waiting_apply a _ ⟨h1, h2⟩

theorem sum_map_zero_of_getD (f : List Action → Int) (l : List (List Action))
    (h : ∀ j, f (l.getD j []) = 0) : (l.map f).sum = 0 := by
  induction l with
  | nil => rfl
  | cons x xs ih =>
    have h0 : f x = 0 := by simpa using h 0
    have hrest := ih (fun j => by simpa using h (j + 1))
    simp [h0, hrest]

/-- A step leaves the state as it is or takes from the work left. -/
theorem step_work (s : State) (t : Tid) : step s t = s ∨ work (step s t) < work s := by
  rcases step_cases s t with h | ⟨_, _, h⟩ | ⟨i, a, rest, _, _, _, hg, h⟩
  · exact Or.inl h
  · rw [h]
    rcases stepMain_cases s with h2 | ⟨hr, ha, hl, h2⟩ | ⟨hr, ha, _, hw, h2⟩ |
      ⟨hr, ha, _, hw, hb, _, h2⟩ | ⟨hr, ha, _, hw, hb, _, h2⟩ |
      ⟨hr, ha, _, hw, hb, _, _, h2⟩ | ⟨hr, ha, _, hw, hb, _, _, _, h2⟩
    · exact Or.inl h2
    · right; rw [h2]; simp only [work, hr, ha]; simp; omega
    · right; rw [h2]; simp [work, hr, ha, hw]
    · right; rw [h2]; simp [work, hr, ha, hw, hb]
    · right; rw [h2]; simp [work, hr, ha, hw, hb]
    · right; rw [h2]; simp [work, hr, ha, hw, hb]
    · right; rw [h2]; simp [work, hr, ha, hw, hb]
  · right
    have hne : s.threads.getD i [] ≠ [] := by rw [hg]; simp
    have hi := getD_lt_of_ne_nil s.threads i hne
    have := sum_map_set List.length s.threads i (a :: rest) rest hg hi
    rw [h]
    simp only [work, apply_threads, apply_launched, apply_waited, apply_response, apply_blocked,
      apply_aborted, List.length_set, List.length_cons] at this ⊢
    omega

/-- A state in which no thread can move, reached without a panic of a
goroutine or of the handler, has the response. -/
theorem at_rest_responded (env : Nat → UnitEnv) (regNums : List String) (s : State)
    (hs : Scripted (scripts env regNums) s) (hcnt : Counted (scripts env regNums) s)
    (hw : Waiting s) (hex : Executed s)
    (hq : ∀ t, step s t = s) (hc : s.crashed = false) (ha : s.aborted = false) :
    s.response ≠ none := by
  intro hr
  have hmain : stepMain s = s := by
    have := hq .main
    simpa [step, hc] using this
  have hl : ¬ s.launched < s.threads.length := by
    intro hl
    have : (stepMain s).launched = s.launched + 1 := by simp [stepMain, hr, ha, hl]
    rw [hmain] at this
    omega
  have hwt : s.waited = false := by
    cases hwt : s.waited with
    | false => rfl
    | true =>
      have : (stepMain s).response = some ⟨200, .number ⟨s.regNums⟩⟩ := by
        simp [stepMain, hr, ha, hl, hwt]
      rw [hmain, hr] at this
      cases this
  have hb : s.blocked = true := by
    cases hb : s.blocked with
    | true => rfl
    | false =>
      by_cases hz : s.wg = 0
      · have : (stepMain s).waited = true := by simp [stepMain, hr, ha, hl, hwt, hb, hz]
        rw [hmain, hwt] at this
        cases this
      · have : (stepMain s).blocked = true := by simp [stepMain, hr, ha, hl, hwt, hb, hz]
        rw [hmain, hb] at this
        cases this
  have hse : s.sema = 0 := by
    by_contra hse
    have : (stepMain s).sema = s.sema - 1 := by
      by_cases hz : s.wg ≠ 0 ∨ s.waiters ≠ 0
      · simp only [stepMain, hr, ha, Option.isSome_none, Bool.or_self, Bool.false_eq_true,
          if_false, if_neg hl, hwt, hb, Bool.not_true, if_neg hse, if_pos hz]
      · simp only [stepMain, hr, ha, Option.isSome_none, Bool.or_self, Bool.false_eq_true,
          if_false, if_neg hl, hwt, hb, Bool.not_true, if_neg hse, if_neg hz]
    rw [hmain] at this
    omega
  have hpos : 0 < s.wg := hw.1 (hw.2 hb hse)
  have hnil : ∀ j, s.threads.getD j [] = [] := by
    intro j
    cases hg : s.threads.getD j [] with
    | nil => rfl
    | cons a rest =>
      exfalso
      have hj : j < s.threads.length := getD_lt_of_ne_nil s.threads j (by rw [hg]; simp)
      have hjl : j < s.launched := by omega
      have : (step s (.unit j)).trace = s.trace ++ [(j, a)] := by
        rw [step_unit_eq, if_pos ⟨hc, hjl⟩, hg]
        simp
      rw [hq] at this
      have := congrArg List.length this
      simp at this
  have hthreads : (s.threads.map balance).sum = 0 :=
    sum_map_zero_of_getD balance s.threads (fun j => by rw [hnil j]; rfl)
  have hall : ((scripts env regNums).map balance).sum = 0 := by
    apply sum_map_zero_of_getD
    intro j
    have hj := hs j
    rw [hnil j, List.append_nil] at hj
    rcases scriptsFrom_getD_cases env regNums 0 j with h0 | ⟨v, m, hvm⟩
    · have h0' : (scripts env regNums).getD j [] = [] := h0
      rw [h0']; rfl
    · have hvm' : (scripts env regNums).getD j [] = unitOfWork v (env m) := hvm
      rw [hvm']
      apply (unitOfWork_panicFree v (env m) _).1
      rw [panicFree_iff, ← hvm', ← hj]
      intro a hmem
      simp only [executedBy, List.mem_map, List.mem_filter] at hmem
      obtain ⟨p, ⟨hp, _⟩, rfl⟩ := hmem
      exact hex hc p hp
  have := hcnt.1
  omega

/-- C5, as amended. A request body that does not decode is answered 400,
without any statement of a unit of work and with the tables untouched. For a
body that decodes to `regNums`, under every schedule and whatever the units of
work do: the only response ever written is 200 with exactly `regNums`; every
step either leaves the state as it is or takes from the finite work left; a
state in which no thread can move, when neither the process has crashed nor
the handler has panicked, has that response; and the process crashes only
when a store call made for the batch panics. -/
theorem handleCreate_responds (env : Nat → UnitEnv) (db : DB) :
    (∀ err sched,
      (handleCreate (.error err) env db sched).response = some ⟨400, .error err.msg⟩ ∧
      (handleCreate (.error err) env db sched).trace = [] ∧
      (handleCreate (.error err) env db sched).db = db) ∧
    (∀ regNums sched,
      ((handleCreate (.ok regNums) env db sched).response = none ∨
        (handleCreate (.ok regNums) env db sched).response = some ⟨200, .number ⟨regNums⟩⟩) ∧
      ((∀ t, step (handleCreate (.ok regNums) env db sched) t
          = handleCreate (.ok regNums) env db sched) →
        (handleCreate (.ok regNums) env db sched).crashed = false →
        (handleCreate (.ok regNums) env db sched).aborted = false →
        (handleCreate (.ok regNums) env db sched).response = some ⟨200, .number ⟨regNums⟩⟩) ∧
      (∀ t, step (handleCreate (.ok regNums) env db sched) t
          = handleCreate (.ok regNums) env db sched ∨
        work (step (handleCreate (.ok regNums) env db sched) t)
          < work (handleCreate (.ok regNums) env db sched)) ∧
      ((∀ l ∈ scripts env regNums, panicFree l = true) →
        (handleCreate (.ok regNums) env db sched).crashed = false)) := by
  constructor
  · intro err sched
    exact ⟨rfl, rfl, rfl⟩
  · intro regNums sched
    have hrun : handleCreate (.ok regNums) env db sched = run (start env db regNums) sched := rfl
    rw [hrun]
    have hreg : (run (start env db regNums) sched).regNums = regNums :=
      run_invariant (fun s => s.regNums = regNums)
        (fun s t h => by show (step s t).regNums = regNums; rw [step_regNums]; exact h)
        _ rfl sched
    have hans : Answered (run (start env db regNums) sched) :=
      run_invariant Answered answered_step _ (Or.inl rfl) sched
    have hex : Executed (run (start env db regNums) sched) :=
      run_invariant Executed executed_step _ (fun _ p hp => by simp [start] at hp) sched
    have hinv : Scripted (scripts env regNums) (run (start env db regNums) sched) ∧
        Counted (scripts env regNums) (run (start env db regNums) sched) ∧
        Waiting (run (start env db regNums) sched) :=
      run_invariant
        (fun s => Scripted (scripts env regNums) s ∧ Counted (scripts env regNums) s ∧
          Waiting s)
        (fun s t h => ⟨scripted_step _ s t h.1, counted_step _ s t h.2.1,
          waiting_step s t h.2.2 (wg_nonneg_of env regNums s h.1 h.2.1)⟩)
        _ ⟨scripted_start env db regNums, ⟨by simp [start], rfl⟩,
          ⟨fun h => absurd rfl h, fun h => by cases h⟩⟩ sched
    have hresp : (run (start env db regNums) sched).response = none ∨
        (run (start env db regNums) sched).response = some ⟨200, .number ⟨regNums⟩⟩ := by
      have := hans
      unfold Answered at this
      rwa [hreg] at this
    refine ⟨hresp, ?_, ?_, ?_⟩
    · intro hq hc ha
      rcases hresp with h | h
      · exact absurd h (at_rest_responded env regNums _ hinv.1 hinv.2.1 hinv.2.2 hex hq hc ha)
      · exact h
    · intro t
      exact step_work _ t
    · intro hpf
      exact (run_invariant Alive alive_step _ (alive_start env db regNums hpf) sched).1


/-- Witness of C5 as amended: a batch of two identifiers, the insert of the
first failing, the second answered 503; the handler blocks in `wg.Wait()`, is
released by the last `Done`, wakes up and responds. -/
theorem handleCreate_responds_witness :
    (∀ t, step (handleCreate (.ok ["X001AA", "B456DE"]) (pgEnv firstFailsCalls) DB.empty
        blockingSchedule) t
      = handleCreate (.ok ["X001AA", "B456DE"]) (pgEnv firstFailsCalls) DB.empty
        blockingSchedule) ∧
    (handleCreate (.ok ["X001AA", "B456DE"]) (pgEnv firstFailsCalls) DB.empty
      blockingSchedule).crashed = false ∧
    (handleCreate (.ok ["X001AA", "B456DE"]) (pgEnv firstFailsCalls) DB.empty
      blockingSchedule).aborted = false ∧
    (handleCreate (.ok ["X001AA", "B456DE"]) (pgEnv firstFailsCalls) DB.empty
      blockingSchedule).response = some ⟨200, .number ⟨["X001AA", "B456DE"]⟩⟩ :=
  have hq : ∀ t, step (handleCreate (.ok ["X001AA", "B456DE"]) (pgEnv firstFailsCalls)
      DB.empty blockingSchedule) t
      = handleCreate (.ok ["X001AA", "B456DE"]) (pgEnv firstFailsCalls) DB.empty
        blockingSchedule := by
    intro t
    cases t with
    | main => rfl
    | unit i =>
      rw [step_unit_eq]
      by_cases hi : i < 2
      · have h01 : i = 0 ∨ i = 1 := by omega
        rcases h01 with rfl | rfl <;> rfl
      · rw [if_neg]
        intro h
        exact hi h.2
  ⟨hq, rfl, rfl,
    ((handleCreate_responds (pgEnv firstFailsCalls) DB.empty).2 ["X001AA", "B456DE"]
      blockingSchedule).2.1 hq rfl rfl⟩

/-- Under every schedule the counter is positive while a waiter is
registered: `wg.Add(1)` never finds the counter at zero with the handler
registered. -/
theorem waiter_counter_pos (env : Nat → UnitEnv) (db : DB) (regNums : List String)
    (sched : List Tid) :
    (run (start env db regNums) sched).waiters ≠ 0 → 0 < (run (start env db regNums) sched).wg :=
  (run_invariant
    (fun s => Scripted (scripts env regNums) s ∧ Counted (scripts env regNums) s ∧ Waiting s)
    (fun s t h => ⟨scripted_step _ s t h.1, counted_step _ s t h.2.1,
      waiting_step s t h.2.2 (wg_nonneg_of env regNums s h.1 h.2.1)⟩)
    _ ⟨scripted_start env db regNums, ⟨by simp [start], rfl⟩,
      ⟨fun h => absurd rfl h, fun h => by cases h⟩⟩ sched).2.2.1

/-- A request whose body is the JSON value `null`: the handler panics at
`req.Num` before the loop; no response is written and no store call made. -/
theorem null_body_panics (env : Nat → UnitEnv) (db : DB) (sched : List Tid) :
    (handleCreate .null env db sched).aborted = true ∧
    (handleCreate .null env db sched).response = none ∧
    (handleCreate .null env db sched).trace = [] ∧
    (handleCreate .null env db sched).db = db :=
  ⟨rfl, rfl, rfl, rfl⟩

set_option exponentiation.threshold 2000 in
/-- A body whose year is the number 1e400, which no float64 holds, does not
decode: the unit of work takes the return of the decode failure and never
calls `CreateEnriched`. -/
theorem decodeInfo_out_of_range :
    fitsFloat64 1 400 = false ∧
    decodeInfo (some (.object [("regNum", .string "X001AA"), ("year", .number 1 400)]))
      = .error ⟨"json: cannot unmarshal number into Go value of type float64"⟩ ∧
    (unitOfWork "X001AA" (pgUnit Call.ok
      (.resp 200 (some (.object [("regNum", .string "X001AA"), ("year", .number 1 400)])))
      Call.ok)).all (fun a => !a.isCreateEnriched) = true := by
  refine ⟨by decide, rfl, by decide⟩

end EffectiveTz
